import Mathlib

/-!
# Verification of the TPMS reader core (protoview-based)

Shallow embedding of the signal-processing and protocol-decoding engine:
bitmap utilities, line-code decoders, checksums, the TPMS protocol decoders
whose C source is available, the dispatcher `decode_signal`, and the
coherent-signal scanner `search_coherent_signal`.

Machine integers are modelled as `Nat` (with explicit `% 2 ^ 32` / `% 256`
at the points where the C code relies on wrap-around).  Byte arrays are
`List Nat` with each entry intended `< 256`; the separate `blen` byte-count
parameter mirrors the C signatures, and out-of-range accesses behave as the
C helpers do (reads give `false`, writes are dropped).
-/

namespace TPMS

/-- `BITMAP_SEEK_NOT_FOUND` sentinel: `UINT32_MAX`. -/
def BITMAP_SEEK_NOT_FOUND : Nat := 4294967295

/-- `bitmap_get` from signal.c: MSB-first bit read with byte-count bound
(`byte = bitpos / 8`, `bit = 7 - bitpos % 8`); out-of-range positions read
as `false`. -/
def bitmap_get (b : List Nat) (blen bitpos : Nat) : Bool :=
  if bitpos / 8 ≥ blen then false
  else decide ((b.getD (bitpos / 8) 0) &&& (1 <<< (7 - bitpos % 8)) ≠ 0)

/-- `bitmap_set` from signal.c: MSB-first bit write with byte-count bound;
out-of-range positions are silently dropped.  The C byte is a `uint8_t`, so
the clearing `&= ~(1 << bit)` is `&&& (255 - (1 <<< bit))` on byte values. -/
def bitmap_set (b : List Nat) (blen bitpos : Nat) (val : Bool) : List Nat :=
  if bitpos / 8 ≥ blen then b
  else if val then
    b.set (bitpos / 8) ((b.getD (bitpos / 8) 0) ||| (1 <<< (7 - bitpos % 8)))
  else
    b.set (bitpos / 8) ((b.getD (bitpos / 8) 0) &&& (255 - (1 <<< (7 - bitpos % 8))))

/-- `bitmap_match_bits` from signal.c: compare the bitmap against an ASCII
`'0'/'1'` pattern starting at `bitpos` (any non-`'1'` character expects a
zero bit, as in the C code). -/
def bitmap_match_bits (b : List Nat) (blen bitpos : Nat) : List Char → Bool
  | [] => true
  | c :: rest =>
    if bitmap_get b blen bitpos ≠ (c == '1') then false
    else bitmap_match_bits b blen (bitpos + 1) rest

/-- The scan loop of `bitmap_seek_bits`: try positions `j, j+1, …`; `fuel`
is the number of positions left in the window (`endpos - j`), so running
out of fuel is exactly the C exit condition `j ≥ endpos`. -/
def bitmap_seek_loop (b : List Nat) (blen : Nat) (pat : List Char) :
    Nat → Nat → Nat
  | _, 0 => BITMAP_SEEK_NOT_FOUND
  | j, fuel + 1 =>
    if bitmap_match_bits b blen j pat then j
    else bitmap_seek_loop b blen pat (j + 1) fuel

/-- `bitmap_seek_bits` from signal.c: search for the pattern from
`startpos`, stopping at `startpos + min (blen*8) maxbits`. -/
def bitmap_seek_bits (b : List Nat) (blen startpos maxbits : Nat)
    (pat : List Char) : Nat :=
  let endpos := startpos + blen * 8
  let end2 := startpos + maxbits
  let endpos := if end2 < endpos then end2 else endpos
  bitmap_seek_loop b blen pat startpos (endpos - startpos)

/-! ### Basic bitmap lemmas -/

theorem bitmap_get_eq_testBit (b : List Nat) (blen bitpos : Nat) :
    bitmap_get b blen bitpos =
      if bitpos / 8 ≥ blen then false
      else (b.getD (bitpos / 8) 0).testBit (7 - bitpos % 8) := by
  unfold bitmap_get
  split
  · rfl
  · rw [Nat.shiftLeft_eq, one_mul]
    have h := Nat.and_two_pow (b.getD (bitpos / 8) 0) (7 - bitpos % 8)
    rcases hbit : (b.getD (bitpos / 8) 0).testBit (7 - bitpos % 8) with _ | _
    · rw [hbit] at h
      simp only [Bool.toNat_false, zero_mul] at h
      rw [h]
      simp
    · rw [hbit] at h
      simp only [Bool.toNat_true, one_mul] at h
      rw [h]
      simp [(Nat.two_pow_pos (7 - bitpos % 8)).ne']

theorem bitmap_get_out_of_range (b : List Nat) (blen bitpos : Nat)
    (h : 8 * blen ≤ bitpos) : bitmap_get b blen bitpos = false := by
  rw [bitmap_get_eq_testBit]
  have : blen ≤ bitpos / 8 := Nat.le_div_iff_mul_le (by omega) |>.2 (by omega)
  simp [this]

theorem bitmap_set_length (b : List Nat) (blen bitpos : Nat) (val : Bool) :
    (bitmap_set b blen bitpos val).length = b.length := by
  unfold bitmap_set
  split
  · rfl
  · split <;> simp

theorem bitmap_set_out_of_range (b : List Nat) (blen bitpos : Nat) (val : Bool)
    (h : 8 * blen ≤ bitpos) : bitmap_set b blen bitpos val = b := by
  unfold bitmap_set
  have : blen ≤ bitpos / 8 := Nat.le_div_iff_mul_le (by omega) |>.2 (by omega)
  simp [this]

/-- The byte mask `255 - 2^i` (i.e. `~(1 << i)` on a byte) has exactly the
bits `j < 8`, `j ≠ i` set. -/
theorem testBit_mask255 (i j : Nat) (hi : i < 8) :
    (255 - 2 ^ i).testBit j = (decide (j < 8) && !decide (i = j)) := by
  have h : (255 : Nat) - 2 ^ i = (2 ^ 8 - 1) ^^^ 2 ^ i := by
    interval_cases i <;> decide
  rw [h, Nat.testBit_xor, Nat.testBit_two_pow_sub_one, Nat.testBit_two_pow]
  rcases Nat.lt_or_ge j 8 with hj | hj
  · cases hd : decide (i = j) <;> simp_all
  · have h1 : ¬ j < 8 := by omega
    have h2 : i ≠ j := by omega
    simp [h1, h2]

theorem bitmap_get_set_eq (b : List Nat) (blen bitpos : Nat) (val : Bool)
    (hblen : bitpos / 8 < blen) (hlen : bitpos / 8 < b.length) :
    bitmap_get (bitmap_set b blen bitpos val) blen bitpos = val := by
  have hb : ¬ bitpos / 8 ≥ blen := by omega
  have hbit : 7 - bitpos % 8 < 8 := by omega
  unfold bitmap_set
  rw [bitmap_get_eq_testBit]
  simp only [hb, if_false]
  cases val
  · simp only [Bool.false_eq_true, if_false]
    have hgd : (b.set (bitpos / 8)
        ((b.getD (bitpos / 8) 0) &&& (255 - (1 <<< (7 - bitpos % 8))))).getD
        (bitpos / 8) 0 =
        (b.getD (bitpos / 8) 0) &&& (255 - (1 <<< (7 - bitpos % 8))) := by
      simp [List.getD, List.getElem?_set_self', List.getElem?_eq_getElem hlen]
    rw [hgd, Nat.shiftLeft_eq, one_mul, Nat.testBit_and,
      testBit_mask255 _ _ hbit]
    simp
  · simp only [if_true]
    have hgd : (b.set (bitpos / 8)
        ((b.getD (bitpos / 8) 0) ||| (1 <<< (7 - bitpos % 8)))).getD
        (bitpos / 8) 0 =
        (b.getD (bitpos / 8) 0) ||| (1 <<< (7 - bitpos % 8)) := by
      simp [List.getD, List.getElem?_set_self', List.getElem?_eq_getElem hlen]
    rw [hgd, Nat.shiftLeft_eq, one_mul, Nat.testBit_or, Nat.testBit_two_pow]
    simp

theorem bitmap_get_set_ne (b : List Nat) (blen bitpos qpos : Nat) (val : Bool)
    (hne : qpos ≠ bitpos) :
    bitmap_get (bitmap_set b blen bitpos val) blen qpos =
      bitmap_get b blen qpos := by
  unfold bitmap_set
  by_cases hb : bitpos / 8 ≥ blen
  · simp [hb]
  rw [if_neg hb]
  rw [bitmap_get_eq_testBit, bitmap_get_eq_testBit]
  by_cases hq : qpos / 8 ≥ blen
  · simp [hq]
  rw [if_neg hq, if_neg hq]
  by_cases hbyte : qpos / 8 = bitpos / 8
  · -- same byte, different bit index within the byte
    have hbitne : 7 - qpos % 8 ≠ 7 - bitpos % 8 := by omega
    have hqbit : 7 - qpos % 8 < 8 := by omega
    by_cases hlen : bitpos / 8 < b.length
    · cases val
      · simp only [Bool.false_eq_true, if_false]
        have : (b.set (bitpos / 8)
            ((b.getD (bitpos / 8) 0) &&& (255 - (1 <<< (7 - bitpos % 8))))).getD
            (qpos / 8) 0 =
            (b.getD (bitpos / 8) 0) &&& (255 - (1 <<< (7 - bitpos % 8))) := by
          rw [hbyte]
          simp [List.getD, List.getElem?_set_self', hlen]
        rw [this, hbyte, Nat.shiftLeft_eq, one_mul, Nat.testBit_and,
          testBit_mask255 _ _ (by omega)]
        have : ¬ (7 - bitpos % 8) = (7 - qpos % 8) := by omega
        simp [hqbit, this]
      · simp only [if_true]
        have : (b.set (bitpos / 8)
            ((b.getD (bitpos / 8) 0) ||| (1 <<< (7 - bitpos % 8)))).getD
            (qpos / 8) 0 =
            (b.getD (bitpos / 8) 0) ||| (1 <<< (7 - bitpos % 8)) := by
          rw [hbyte]
          simp [List.getD, List.getElem?_set_self', hlen]
        rw [this, hbyte, Nat.shiftLeft_eq, one_mul, Nat.testBit_or,
          Nat.testBit_two_pow]
        have : ¬ (7 - bitpos % 8) = (7 - qpos % 8) := by omega
        simp [this]
    · have hset : ∀ x, (b.set (bitpos / 8) x) = b :=
        fun x => List.set_eq_of_length_le (by omega)
      cases val <;> simp [hset]
  · -- different bytes: the written byte is not the byte read
    have hgd : ∀ x : Nat, (b.set (bitpos / 8) x)[qpos / 8]?.getD 0 =
        b[qpos / 8]?.getD 0 := by
      intro x
      rw [List.getElem?_set_ne (fun h => hbyte h.symm)]
    cases val <;> simp only [Bool.false_eq_true, if_false, if_true] <;>
      simp [List.getD, hgd]

/-- `bitmap_set` keeps every byte below 256 (bytes are `uint8_t` in C). -/
theorem bitmap_set_bytes_lt (b : List Nat) (blen bitpos : Nat) (val : Bool)
    (hb : ∀ x ∈ b, x < 256) :
    ∀ x ∈ bitmap_set b blen bitpos val, x < 256 := by
  unfold bitmap_set
  split
  · exact hb
  have hbit : 7 - bitpos % 8 < 8 := by omega
  have hgd : b.getD (bitpos / 8) 0 < 256 := by
    rcases Nat.lt_or_ge (bitpos / 8) b.length with h | h
    · simpa [List.getD, List.getElem?_eq_getElem h] using
        hb _ (List.getElem_mem h)
    · simp [List.getD, List.getElem?_eq_none h]
  split
  · intro x hx
    rcases List.mem_or_eq_of_mem_set hx with h | h
    · exact hb x h
    · subst h
      rw [Nat.shiftLeft_eq, one_mul]
      have : (256 : Nat) = 2 ^ 8 := by norm_num
      rw [this] at hgd ⊢
      exact Nat.or_lt_two_pow hgd (Nat.pow_lt_pow_right (by omega) hbit)
  · intro x hx
    rcases List.mem_or_eq_of_mem_set hx with h | h
    · exact hb x h
    · subst h
      exact lt_of_le_of_lt (Nat.and_le_left) hgd

/-! ### `bitmap_seek_bits` correctness -/

theorem bitmap_seek_loop_spec (b : List Nat) (blen : Nat) (pat : List Char) :
    ∀ fuel j,
    (bitmap_seek_loop b blen pat j fuel = BITMAP_SEEK_NOT_FOUND ∧
      ∀ k, j ≤ k → k < j + fuel → bitmap_match_bits b blen k pat = false) ∨
    (j ≤ bitmap_seek_loop b blen pat j fuel ∧
      bitmap_seek_loop b blen pat j fuel < j + fuel ∧
      bitmap_match_bits b blen (bitmap_seek_loop b blen pat j fuel) pat = true ∧
      ∀ k, j ≤ k → k < bitmap_seek_loop b blen pat j fuel →
        bitmap_match_bits b blen k pat = false) := by
  intro fuel
  induction fuel with
  | zero =>
    intro j
    left
    exact ⟨rfl, fun k hk1 hk2 => by omega⟩
  | succ m ih =>
    intro j
    rw [bitmap_seek_loop]
    by_cases hm : bitmap_match_bits b blen j pat
    · rw [if_pos hm]
      right
      exact ⟨le_refl j, by omega, hm, fun k hk1 hk2 => by omega⟩
    · have hm' : bitmap_match_bits b blen j pat = false := by
        simpa using hm
      rw [if_neg hm]
      rcases ih (j + 1) with ⟨h1, h2⟩ | ⟨h1, h2, h3, h4⟩
      · left
        refine ⟨h1, ?_⟩
        intro k hk1 hk2
        rcases Nat.eq_or_lt_of_le hk1 with rfl | hk1'
        · exact hm'
        · exact h2 k hk1' (by omega)
      · right
        refine ⟨by omega, by omega, h3, ?_⟩
        intro k hk1 hk2
        rcases Nat.eq_or_lt_of_le hk1 with rfl | hk1'
        · exact hm'
        · exact h4 k hk1' hk2

/-! ### NRZ-by-rate conversion (`convert_signal_to_bits`) -/

/-- The inner `while (numbits--) bitmap_set(b, blen, bitpos++, level)` loop. -/
def emit_bits (blen : Nat) (level : Bool) :
    List Nat → Nat → Nat → List Nat × Nat
  | b, bitpos, 0 => (b, bitpos)
  | b, bitpos, n + 1 =>
    emit_bits blen level (bitmap_set b blen bitpos level) (bitpos + 1) n

/-- The repetition count the C loop computes for one pulse:
`numbits = dur / rate`, incremented when the remainder strictly exceeds
`rate / 2`, then clipped at 1024. -/
def pulse_reps (rate dur : Nat) : Nat :=
  let numbits := dur / rate
  let numbits := if dur % rate > rate / 2 then numbits + 1 else numbits
  if numbits > 1024 then 1024 else numbits

/-- The `for (j = 0; j < count; j++)` loop of `convert_signal_to_bits`.
`get` abstracts `raw_samples_get(s, ·)`; the C index expression `j + idx`
is `uint32_t` arithmetic, hence the `% 2 ^ 32`.  `fuel` is the number of
remaining iterations (`count - j`). -/
def convert_loop (blen : Nat) (get : Nat → Bool × Nat) (idx rate : Nat) :
    List Nat → Nat → Nat → Nat → List Nat × Nat
  | b, bitpos, _, 0 => (b, bitpos)
  | b, bitpos, j, fuel + 1 =>
    let p := get ((j + idx) % 2 ^ 32)
    let r := emit_bits blen p.1 b bitpos (pulse_reps rate p.2)
    convert_loop blen get idx rate r.1 r.2 (j + 1) fuel

/-- `convert_signal_to_bits` from signal.c.  Returns the final buffer and
the number of bits emitted (`bitpos`). -/
def convert_signal_to_bits (b : List Nat) (blen : Nat)
    (get : Nat → Bool × Nat) (idx count rate : Nat) : List Nat × Nat :=
  if rate = 0 then (b, 0)
  else convert_loop blen get idx rate b 0 0 count

/-- The bit stream the NRZ conversion should produce, as a flat list:
for each pulse, `pulse_reps` repetitions of its level. -/
def nrz_spec (get : Nat → Bool × Nat) (idx rate : Nat) : Nat → Nat → List Bool
  | _, 0 => []
  | j, fuel + 1 =>
    List.replicate (pulse_reps rate (get ((j + idx) % 2 ^ 32)).2)
        (get ((j + idx) % 2 ^ 32)).1 ++
      nrz_spec get idx rate (j + 1) fuel

theorem emit_bits_snd (blen : Nat) (level : Bool) (b : List Nat)
    (bitpos n : Nat) : (emit_bits blen level b bitpos n).2 = bitpos + n := by
  induction n generalizing b bitpos with
  | zero => simp [emit_bits]
  | succ m ih =>
    rw [emit_bits, ih]
    omega

theorem emit_bits_length (blen : Nat) (level : Bool) (b : List Nat)
    (bitpos n : Nat) : (emit_bits blen level b bitpos n).1.length = b.length := by
  induction n generalizing b bitpos with
  | zero => simp [emit_bits]
  | succ m ih =>
    rw [emit_bits, ih, bitmap_set_length]

theorem emit_bits_get_out (blen : Nat) (level : Bool) (b : List Nat)
    (bitpos n q : Nat) (h : q < bitpos ∨ bitpos + n ≤ q) :
    bitmap_get (emit_bits blen level b bitpos n).1 blen q =
      bitmap_get b blen q := by
  induction n generalizing b bitpos with
  | zero => simp [emit_bits]
  | succ m ih =>
    rw [emit_bits, ih _ _ (by omega), bitmap_get_set_ne _ _ _ _ _ (by omega)]

theorem emit_bits_get_in (blen : Nat) (level : Bool) (b : List Nat)
    (bitpos n q : Nat) (h1 : bitpos ≤ q) (h2 : q < bitpos + n)
    (h3 : q / 8 < blen) (h4 : q / 8 < b.length) :
    bitmap_get (emit_bits blen level b bitpos n).1 blen q = level := by
  induction n generalizing b bitpos with
  | zero => omega
  | succ m ih =>
    rw [emit_bits]
    by_cases heq : q = bitpos
    · subst heq
      rw [emit_bits_get_out _ _ _ _ _ _ (Or.inl (by omega)),
        bitmap_get_set_eq _ _ _ _ h3 h4]
    · refine ih _ _ (by omega) (by omega) ?_
      rw [bitmap_set_length]
      exact h4

theorem emit_bits_bytes_lt (blen : Nat) (level : Bool) (b : List Nat)
    (bitpos n : Nat) (hb : ∀ x ∈ b, x < 256) :
    ∀ x ∈ (emit_bits blen level b bitpos n).1, x < 256 := by
  induction n generalizing b bitpos with
  | zero => simpa [emit_bits] using hb
  | succ m ih =>
    rw [emit_bits]
    exact ih _ _ (bitmap_set_bytes_lt _ _ _ _ hb)

/-- The main loop lemma for `convert_loop`: the returned bit count adds the
spec length, the buffer length is unchanged, bits inside the written window
agree with `nrz_spec`, and bits outside it are untouched. -/
theorem convert_loop_spec (blen : Nat) (get : Nat → Bool × Nat)
    (idx rate : Nat) (b : List Nat) (bitpos j fuel : Nat)
    (hlen : b.length = blen) :
    (convert_loop blen get idx rate b bitpos j fuel).2 =
        bitpos + (nrz_spec get idx rate j fuel).length ∧
    (convert_loop blen get idx rate b bitpos j fuel).1.length = blen ∧
    (∀ q, q < (nrz_spec get idx rate j fuel).length → bitpos + q < 8 * blen →
      bitmap_get (convert_loop blen get idx rate b bitpos j fuel).1 blen (bitpos + q) =
        (nrz_spec get idx rate j fuel).getD q false) ∧
    (∀ q, q < bitpos ∨ bitpos + (nrz_spec get idx rate j fuel).length ≤ q →
      bitmap_get (convert_loop blen get idx rate b bitpos j fuel).1 blen q =
        bitmap_get b blen q) := by
  induction fuel generalizing b bitpos j with
  | zero =>
    simp [convert_loop, nrz_spec, hlen]
  | succ m ih =>
    rw [convert_loop]
    set p := get ((j + idx) % 2 ^ 32) with hp
    set n := pulse_reps rate p.2 with hn
    set r := emit_bits blen p.1 b bitpos n with hr
    have hr2 : r.2 = bitpos + n := emit_bits_snd ..
    have hrlen : r.1.length = blen := by rw [hr, emit_bits_length, hlen]
    have hspec : nrz_spec get idx rate j (m + 1) =
        List.replicate n p.1 ++ nrz_spec get idx rate (j + 1) m := by
      rw [nrz_spec]
    obtain ⟨ih1, ih2, ih3, ih4⟩ := ih r.1 r.2 (j + 1) hrlen
    refine ⟨?_, ih2, ?_, ?_⟩
    · rw [ih1, hr2, hspec]
      simp only [List.length_append, List.length_replicate]
      omega
    · intro q hq hq8
      rw [hspec] at hq ⊢
      simp only [List.length_append, List.length_replicate] at hq
      by_cases hcase : q < n
      · rw [ih4 _ (by omega)]
        have hrep : (List.replicate n p.1 ++ nrz_spec get idx rate (j + 1) m).getD q false = p.1 := by
          rw [List.getD_append _ _ _ _ (by simpa using hcase)]
          simp [List.getD, List.getElem?_replicate, hcase]
        rw [hrep, hr]
        refine emit_bits_get_in _ _ _ _ _ _ (by omega) (by omega) ?_ ?_
        · have : bitpos + q < 8 * blen := hq8
          omega
        · rw [hlen]
          omega
      · have hq' : q - n < (nrz_spec get idx rate (j + 1) m).length := by omega
        have := ih3 (q - n) hq' (by omega)
        have harith : r.2 + (q - n) = bitpos + q := by omega
        rw [harith] at this
        rw [this]
        rw [List.getD_append_right _ _ _ _ (by simpa using Nat.not_lt.1 hcase)]
        simp
    · intro q hq
      rw [hspec] at hq
      simp only [List.length_append, List.length_replicate] at hq
      rw [ih4 _ (by omega), hr, emit_bits_get_out _ _ _ _ _ _ (by omega)]

theorem convert_loop_bytes_lt (blen : Nat) (get : Nat → Bool × Nat)
    (idx rate : Nat) :
    ∀ (fuel : Nat) (b : List Nat) (bitpos j : Nat), (∀ x ∈ b, x < 256) →
      ∀ x ∈ (convert_loop blen get idx rate b bitpos j fuel).1, x < 256 := by
  intro fuel
  induction fuel with
  | zero =>
    intro b bitpos j hb
    simpa [convert_loop] using hb
  | succ m ih =>
    intro b bitpos j hb
    rw [convert_loop]
    exact ih _ _ _ (emit_bits_bytes_lt _ _ _ _ _ hb)

theorem convert_signal_to_bits_length (b : List Nat) (blen : Nat)
    (get : Nat → Bool × Nat) (idx count rate : Nat) (hlen : b.length = blen) :
    (convert_signal_to_bits b blen get idx count rate).1.length = blen := by
  unfold convert_signal_to_bits
  split
  · exact hlen
  · exact (convert_loop_spec blen get idx rate b 0 0 count hlen).2.1

theorem convert_signal_to_bits_bytes_lt (b : List Nat) (blen : Nat)
    (get : Nat → Bool × Nat) (idx count rate : Nat)
    (hb : ∀ x ∈ b, x < 256) :
    ∀ x ∈ (convert_signal_to_bits b blen get idx count rate).1, x < 256 := by
  unfold convert_signal_to_bits
  split
  · exact hb
  · exact convert_loop_bytes_lt blen get idx rate count b 0 0 hb

/-! ### Generic line-code decoder (`convert_from_line_code`) -/

/-- The loop of `convert_from_line_code` from signal.c.  `lenBits` is the C
`len` after `len *= 8`; note the C code passes this *bit* count as the
byte-length argument of `bitmap_match_bits`/`bitmap_set` on the source,
which we mirror.  Every iteration increments `decoded` and the loop breaks
at `decoded / 8 == buflen`, so at most `8 * buflen + 1` iterations can run;
`fuel`, instantiated with that bound, never expires. -/
def line_code_loop (buf : List Nat) (buflen : Nat) (bits : List Nat)
    (lenBits : Nat) (zero one : List Char) :
    Nat → Nat → Nat → List Nat × Nat
  | _, decoded, 0 => (buf, decoded)
  | off, decoded, fuel + 1 =>
    if off < lenBits then
      if bitmap_match_bits bits lenBits off zero then
        let buf' := bitmap_set buf buflen decoded false
        if (decoded + 1) / 8 = buflen then (buf', decoded + 1)
        else line_code_loop buf' buflen bits lenBits zero one
          (off + zero.length) (decoded + 1) fuel
      else if bitmap_match_bits bits lenBits off one then
        let buf' := bitmap_set buf buflen decoded true
        if (decoded + 1) / 8 = buflen then (buf', decoded + 1)
        else line_code_loop buf' buflen bits lenBits zero one
          (off + one.length) (decoded + 1) fuel
      else (buf, decoded)
    else (buf, decoded)

/-- `convert_from_line_code` from signal.c. -/
def convert_from_line_code (buf : List Nat) (buflen : Nat) (bits : List Nat)
    (len off : Nat) (zero one : List Char) : List Nat × Nat :=
  line_code_loop buf buflen bits (len * 8) zero one off 0 (8 * buflen + 1)

/-! ### Differential Manchester decoders -/

/-- Loop of `convert_from_diff_manchester` (pairwise form): iterates bit
pairs, emits `b0 == b1`, carries `b1` forward.  The cursor `j` advances by
two per iteration while the loop runs only when `j < lenBits`, so a fuel of
`lenBits - j` at entry never expires before the C loop exits. -/
def diff_pairwise_loop (buflen : Nat) (bits : List Nat) (lenBits : Nat) :
    List Nat → Nat → Nat → Bool → Nat → List Nat × Nat
  | buf, _, decoded, _, 0 => (buf, decoded)
  | buf, j, decoded, previous, fuel + 1 =>
    if j < lenBits then
      let b0 := bitmap_get bits lenBits j
      let b1 := bitmap_get bits lenBits (j + 1)
      if b0 = previous then (buf, decoded)
      else
        let buf' := bitmap_set buf buflen decoded (b0 == b1)
        if (decoded + 1) / 8 = buflen then (buf', decoded + 1)
        else diff_pairwise_loop buflen bits lenBits buf' (j + 2)
          (decoded + 1) b1 fuel
    else (buf, decoded)

/-- `convert_from_diff_manchester` from signal.c (legacy pairwise form). -/
def convert_from_diff_manchester (buf : List Nat) (buflen : Nat)
    (bits : List Nat) (len off : Nat) (previous : Bool) : List Nat × Nat :=
  diff_pairwise_loop buflen bits (len * 8) buf off 0 previous (len * 8 - off)

/-- The `while` loop of `diff_manchester_decode` from signal.c (3-sample
sliding window).  The cursor advances by at least one bit per iteration and
the loop runs only while `off < numbytes * 8`, so a fuel of
`numbytes * 8 - off` at entry never expires before the C loop exits. -/
def diff_manchester_loop (buflen : Nat) (bits : List Nat) (numbytes : Nat)
    (max_bits : Nat) :
    List Nat → Nat → Nat → Bool → Nat → List Nat × Nat
  | buf, _, decoded, _, 0 => (buf, decoded)
  | buf, off, decoded, bit, fuel + 1 =>
    if decoded < max_bits ∧ off < numbytes * 8 then
      let bit2 := bitmap_get bits numbytes off
      if bit = bit2 then (buf, decoded)
      else if numbytes * 8 ≤ off + 1 then (buf, decoded)
      else
        let bit3 := bitmap_get bits numbytes (off + 1)
        diff_manchester_loop buflen bits numbytes max_bits
          (bitmap_set buf buflen decoded (bit2 == bit3))
          (off + 2) (decoded + 1) bit3 fuel
    else (buf, decoded)

/-- `diff_manchester_decode` from signal.c: bootstrap with one bit, then
decode with the sliding window. -/
def diff_manchester_decode (buf : List Nat) (buflen : Nat) (bits : List Nat)
    (numbytes off max_bits : Nat) : List Nat × Nat :=
  if numbytes * 8 ≤ off then (buf, 0)
  else diff_manchester_loop buflen bits numbytes max_bits buf (off + 1) 0
    (bitmap_get bits numbytes off) (numbytes * 8 - (off + 1))

/-- The decoded bit sequence described by the specification sentence for
the sliding differential Manchester decoder: after the bootstrap bit, each
output bit consumes two source bits; stop when the first equals the carried
state or the source is exhausted; emit `1` iff the pair's two bits are
equal; carry the second bit; stop after `max_bits` outputs.  `fuel` only
bounds the recursion and is instantiated with the remaining source length,
which the cursor can never outrun. -/
def diff_manchester_claim_loop (bits : List Nat) (numbytes : Nat) :
    Nat → Nat → Bool → Nat → List Bool
  | _, _, _, 0 => []
  | off, max_bits, carried, fuel + 1 =>
    if 0 < max_bits ∧ off < numbytes * 8 then
      let first := bitmap_get bits numbytes off
      if carried = first then []
      else if numbytes * 8 ≤ off + 1 then []
      else
        let second := bitmap_get bits numbytes (off + 1)
        (first == second) ::
          diff_manchester_claim_loop bits numbytes (off + 2) (max_bits - 1)
            second fuel
    else []

/-- Spec-level description for the whole sliding decoder (claim wording):
one bootstrap bit at the start offset, then the pair loop. -/
def diff_manchester_claim (bits : List Nat) (numbytes off max_bits : Nat) :
    List Bool :=
  if numbytes * 8 ≤ off then []
  else diff_manchester_claim_loop bits numbytes (off + 1) max_bits
    (bitmap_get bits numbytes off) (numbytes * 8 - (off + 1))

theorem diff_manchester_loop_spec (buflen : Nat) (bits : List Nat)
    (numbytes max_bits : Nat) :
    ∀ fuel buf off decoded bit, buf.length = buflen →
    (diff_manchester_loop buflen bits numbytes max_bits buf off decoded bit
        fuel).2 =
      decoded + (diff_manchester_claim_loop bits numbytes off
        (max_bits - decoded) bit fuel).length ∧
    (diff_manchester_loop buflen bits numbytes max_bits buf off decoded bit
        fuel).1.length = buflen ∧
    (∀ i, i < (diff_manchester_claim_loop bits numbytes off
          (max_bits - decoded) bit fuel).length →
      decoded + i < 8 * buflen →
      bitmap_get (diff_manchester_loop buflen bits numbytes max_bits buf off
          decoded bit fuel).1 buflen (decoded + i) =
        (diff_manchester_claim_loop bits numbytes off
          (max_bits - decoded) bit fuel).getD i false) ∧
    (∀ q, q < decoded ∨ decoded + (diff_manchester_claim_loop bits numbytes
          off (max_bits - decoded) bit fuel).length ≤ q →
      bitmap_get (diff_manchester_loop buflen bits numbytes max_bits buf off
          decoded bit fuel).1 buflen q = bitmap_get buf buflen q) := by
  intro fuel
  induction fuel with
  | zero =>
    intro buf off decoded bit hbuf
    exact ⟨by simp [diff_manchester_loop, diff_manchester_claim_loop],
      by simpa [diff_manchester_loop] using hbuf,
      by simp [diff_manchester_claim_loop],
      fun q _ => by simp [diff_manchester_loop]⟩
  | succ m ih =>
    intro buf off decoded bit hbuf
    rw [diff_manchester_loop, diff_manchester_claim_loop]
    by_cases hguard : decoded < max_bits ∧ off < numbytes * 8
    · have hguard' : 0 < max_bits - decoded ∧ off < numbytes * 8 := by omega
      rw [if_pos hguard, if_pos hguard']
      by_cases hmid : bit = bitmap_get bits numbytes off
      · rw [if_pos hmid, if_pos hmid]
        exact ⟨by simp, hbuf, by simp, fun q _ => rfl⟩
      · rw [if_neg hmid, if_neg hmid]
        by_cases hend : numbytes * 8 ≤ off + 1
        · rw [if_pos hend, if_pos hend]
          exact ⟨by simp, hbuf, by simp, fun q _ => rfl⟩
        · rw [if_neg hend, if_neg hend]
          set bit2 := bitmap_get bits numbytes off with hbit2
          set bit3 := bitmap_get bits numbytes (off + 1) with hbit3
          have hbuf' : (bitmap_set buf buflen decoded (bit2 == bit3)).length
              = buflen := by rw [bitmap_set_length, hbuf]
          have hrec := ih (bitmap_set buf buflen decoded (bit2 == bit3))
            (off + 2) (decoded + 1) bit3 hbuf'
          obtain ⟨h1, h2, h3, h4⟩ := hrec
          have hmb : max_bits - (decoded + 1) = max_bits - decoded - 1 := by
            omega
          rw [hmb] at h1 h3 h4
          refine ⟨?_, h2, ?_, ?_⟩
          · rw [h1]
            simp only [List.length_cons]
            omega
          · intro i hi hi8
            simp only [List.length_cons] at hi
            rcases Nat.eq_zero_or_pos i with rfl | hipos
            · simp only [Nat.add_zero, List.getD_cons_zero]
              rw [h4 decoded (Or.inl (by omega))]
              exact bitmap_get_set_eq _ _ _ _ (by omega) (by omega)
            · obtain ⟨j, rfl⟩ :=
                Nat.exists_eq_succ_of_ne_zero (Nat.pos_iff_ne_zero.1 hipos)
              have harith : decoded + (j + 1) = (decoded + 1) + j := by omega
              rw [harith, h3 j (by omega) (by omega)]
              simp
          · intro q hq
            simp only [List.length_cons] at hq
            rw [h4 q (by omega),
              bitmap_get_set_ne _ _ _ _ _ (by omega)]
    · have hg2 : ¬(0 < max_bits - decoded ∧ off < numbytes * 8) := by omega
      rw [if_neg hguard, if_neg hg2]
      exact ⟨by simp, hbuf, by simp, fun q _ => rfl⟩

/-- C6: `diff_manchester_decode` reads one bootstrap bit at the start
offset, then for each output bit consumes two source bits: it stops if the
first consumed bit equals the carried state (missing mid-bit transition);
otherwise it emits 1 when the second consumed bit equals the first of the
pair (no start transition) and 0 when it differs (start transition),
carrying the second bit forward, until `max_bits` bits are decoded or the
source bits are exhausted — i.e. its decode count and emitted bits agree
with the claim-level `diff_manchester_claim`. -/
theorem diff_manchester_decode_matches_claim (buf : List Nat) (buflen : Nat)
    (bits : List Nat) (numbytes off max_bits : Nat)
    (hbuf : buf.length = buflen) :
    (diff_manchester_decode buf buflen bits numbytes off max_bits).2 =
        (diff_manchester_claim bits numbytes off max_bits).length ∧
    (∀ i, i < (diff_manchester_claim bits numbytes off max_bits).length →
      i < 8 * buflen →
      bitmap_get (diff_manchester_decode buf buflen bits numbytes off
          max_bits).1 buflen i =
        (diff_manchester_claim bits numbytes off max_bits).getD i false) := by
  unfold diff_manchester_decode diff_manchester_claim
  by_cases hoff : numbytes * 8 ≤ off
  · simp [hoff]
  · rw [if_neg hoff, if_neg hoff]
    have h := diff_manchester_loop_spec buflen bits numbytes max_bits
      (numbytes * 8 - (off + 1)) buf (off + 1) 0 (bitmap_get bits numbytes off)
      hbuf
    obtain ⟨h1, _h2, h3, _h4⟩ := h
    simp only [Nat.sub_zero, Nat.zero_add] at h1 h3
    exact ⟨h1, h3⟩

/-- Witness for `diff_manchester_decode_matches_claim` at a concrete
one-byte source `0x6B`. -/
theorem diff_manchester_decode_matches_claim_witness :
    (diff_manchester_decode [0, 0] 2 [107] 1 0 5).2 =
        (diff_manchester_claim [107] 1 0 5).length ∧
    (∀ i, i < (diff_manchester_claim [107] 1 0 5).length →
      i < 8 * 2 →
      bitmap_get (diff_manchester_decode [0, 0] 2 [107] 1 0 5).1 2 i =
        (diff_manchester_claim [107] 1 0 5).getD i false) :=
  diff_manchester_decode_matches_claim [0, 0] 2 [107] 1 0 5 (by decide)

/-! ### Checksums

crc.c is not part of the provided sources (app.h only declares `crc8`,
`sum_bytes`, `xor_bytes`), so the checksum functions are modelled from the
specification (§4.4). -/

/-- One shift step of the CRC-8: shift the 8-bit accumulator left and XOR
the polynomial when the top bit before the shift was set. -/
def crc8_step (poly crc : Nat) : Nat :=
  if crc &&& 0x80 ≠ 0 then ((crc <<< 1) ^^^ poly) % 256 else (crc <<< 1) % 256

/-- Modelled from the spec: crc.c is missing from src/.  §4.4 `crc8`:
MSB-first, bit-by-bit, no reflection, no final XOR; for each byte XOR it
into the accumulator, then do 8 conditional shift/XOR steps. -/
def crc8 (data : List Nat) (len init poly : Nat) : Nat :=
  (data.take len).foldl (fun crc byte => (crc8_step poly)^[8] (crc ^^^ byte)) init

/-- One shift step of the CRC-16 (16-bit accumulator). -/
def crc16_step (poly crc : Nat) : Nat :=
  if crc &&& 0x8000 ≠ 0 then ((crc <<< 1) ^^^ poly) % 65536
  else (crc <<< 1) % 65536

/-- Modelled from the spec: crc.c is missing from src/.  §4.4 `crc16`: same
structure as `crc8` with a 16-bit accumulator; each byte enters at the top
of the accumulator, matching the §8 requirement that a payload with its
valid CRC-16 appended verifies to zero. -/
def crc16 (data : List Nat) (len init poly : Nat) : Nat :=
  (data.take len).foldl
    (fun crc byte => (crc16_step poly)^[8] (crc ^^^ (byte <<< 8))) init

/-- Modelled from the spec: crc.c is missing from src/.  §4.4 `sum_bytes`:
`(init + Σ bytes) mod 256`. -/
def sum_bytes (data : List Nat) (len init : Nat) : Nat :=
  ((data.take len).foldl (· + ·) init) % 256

/-- Modelled from the spec: crc.c is missing from src/.  §4.4 `xor_bytes`:
running XOR of the bytes into `init`. -/
def xor_bytes (data : List Nat) (len init : Nat) : Nat :=
  (data.take len).foldl (· ^^^ ·) init

/-! ### Field sets

fields.c is not part of the provided sources (app.h only declares the
`fieldset_*` API), so the field-set is modelled from the specification
(§4.5, §3): an ordered, append-only sequence of named type-tagged fields;
`add_bytes` stores its length in nibbles; floats keep the number of digits
after the dot. -/

/-- Type-tagged field payload (§3: string, signed_int, unsigned_int,
binary, hex, bytes, float).  Floating point values are modelled as exact
rationals. -/
inductive FieldVal where
  | str (s : String)
  | int (v : Int)
  | uint (v : Nat)
  | bin (v : Nat)
  | hex (v : Nat)
  | bytes (bs : List Nat)
  | float (v : ℚ)
  deriving DecidableEq

/-- Modelled from the spec: fields.c is missing from src/.  A field has a
name, a payload (which carries the type tag) and a length (bits, or
nibbles for `bytes`, or digits after the dot for `float`). -/
structure Field where
  name : String
  val : FieldVal
  len : Nat
  deriving DecidableEq

def fieldset_add_int (fs : List Field) (name : String) (v : Int)
    (bits : Nat) : List Field := fs ++ [⟨name, FieldVal.int v, bits⟩]

def fieldset_add_uint (fs : List Field) (name : String) (v : Nat)
    (bits : Nat) : List Field := fs ++ [⟨name, FieldVal.uint v, bits⟩]

def fieldset_add_hex (fs : List Field) (name : String) (v : Nat)
    (bits : Nat) : List Field := fs ++ [⟨name, FieldVal.hex v, bits⟩]

def fieldset_add_bytes (fs : List Field) (name : String) (bs : List Nat)
    (nibbles : Nat) : List Field := fs ++ [⟨name, FieldVal.bytes bs, nibbles⟩]

def fieldset_add_float (fs : List Field) (name : String) (v : ℚ)
    (digits : Nat) : List Field := fs ++ [⟨name, FieldVal.float v, digits⟩]

/-- `ProtoViewMsgInfo` (app.h), with the decoder pointer replaced by the
decoder name. -/
structure MsgInfo where
  decoder : Option String
  fieldset : List Field
  start_off : Nat
  pulses_count : Nat
  short_pulse_dur : Nat
  bits : Option (List Nat)
  bits_bytes : Nat
  deriving DecidableEq

/-- `init_msg_info`: zeroed info with a fresh empty fieldset. -/
def init_msg_info : MsgInfo :=
  ⟨none, [], 0, 0, 0, none, 0⟩

/-! ### `bitmap_copy` -/

/-- Aligned fast path of `bitmap_copy`:
`while (count > 8 && didx < dlen && sidx < slen) d[didx++] = s[sidx++]`.
Returns `(d, didx, sidx, count)`.  Each iteration removes 8 from `count`,
so a fuel of `count` at entry never expires before the C loop exits. -/
def bitmap_copy_aligned (dlen : Nat) (s : List Nat) (slen : Nat) :
    List Nat → Nat → Nat → Nat → Nat → List Nat × Nat × Nat × Nat
  | d, didx, sidx, count, 0 => (d, didx, sidx, count)
  | d, didx, sidx, count, fuel + 1 =>
    if count > 8 ∧ didx < dlen ∧ sidx < slen then
      bitmap_copy_aligned dlen s slen (d.set didx (s.getD sidx 0))
        (didx + 1) (sidx + 1) (count - 8) fuel
    else (d, didx, sidx, count)

/-- Head bit loop of `bitmap_copy`:
`while (count > 8 && (doff & 7) != 0)` copy single bits.
Returns `(d, doff, soff, count)`; fuel as in `bitmap_copy_aligned`. -/
def bitmap_copy_head (dlen : Nat) (s : List Nat) (slen : Nat) :
    List Nat → Nat → Nat → Nat → Nat → List Nat × Nat × Nat × Nat
  | d, doff, soff, count, 0 => (d, doff, soff, count)
  | d, doff, soff, count, fuel + 1 =>
    if count > 8 ∧ doff % 8 ≠ 0 then
      bitmap_copy_head dlen s slen
        (bitmap_set d dlen doff (bitmap_get s slen soff))
        (doff + 1) (soff + 1) (count - 1) fuel
    else (d, doff, soff, count)

/-- Skewed byte loop of `bitmap_copy`: merge two adjacent source bytes
(`(s[sidx] << skew) | (s[sidx+1] >> (8-skew))`, truncated to a byte) into
one destination byte.  Returns `(d, doff, soff, count)`; fuel as in
`bitmap_copy_aligned`. -/
def bitmap_copy_skew (dlen : Nat) (s : List Nat) (slen skew : Nat) :
    List Nat → Nat → Nat → Nat → Nat → Nat → Nat → List Nat × Nat × Nat × Nat
  | d, _, _, doff, soff, count, 0 => (d, doff, soff, count)
  | d, didx, sidx, doff, soff, count, fuel + 1 =>
    if count > 8 ∧ didx < dlen ∧ sidx < slen then
      bitmap_copy_skew dlen s slen skew
        (d.set didx ((((s.getD sidx 0) <<< skew) |||
          ((s.getD (sidx + 1) 0) >>> (8 - skew))) % 256))
        (didx + 1) (sidx + 1) (doff + 8) (soff + 8) (count - 8) fuel
    else (d, doff, soff, count)

/-- Tail bit loop of `bitmap_copy`: `while (count)` copy single bits. -/
def bitmap_copy_tail (dlen : Nat) (s : List Nat) (slen : Nat) :
    List Nat → Nat → Nat → Nat → List Nat
  | d, _, _, 0 => d
  | d, doff, soff, count + 1 =>
    bitmap_copy_tail dlen s slen
      (bitmap_set d dlen doff (bitmap_get s slen soff))
      (doff + 1) (soff + 1) count

/-- `bitmap_copy` from signal.c: byte-aligned fast path, head alignment
bit loop, skewed word loop, tail bit loop. -/
def bitmap_copy (d : List Nat) (dlen doff : Nat) (s : List Nat)
    (slen soff count : Nat) : List Nat :=
  let st :=
    if doff % 8 = 0 ∧ soff % 8 = 0 then
      let r := bitmap_copy_aligned dlen s slen d (doff / 8) (soff / 8) count
        count
      (r.1, r.2.1 * 8, r.2.2.1 * 8, r.2.2.2)
    else (d, doff, soff, count)
  let st := bitmap_copy_head dlen s slen st.1 st.2.1 st.2.2.1 st.2.2.2
    st.2.2.2
  let st :=
    if st.2.2.2 > 8 then
      bitmap_copy_skew dlen s slen (st.2.2.1 % 8) st.1 (st.2.1 / 8)
        (st.2.2.1 / 8) st.2.1 st.2.2.1 st.2.2.2 st.2.2.2
    else st
  bitmap_copy_tail dlen s slen st.1 st.2.1 st.2.2.1 st.2.2.2

/-- When the byte-count bound covers the whole list, `bitmap_get` is the
`testBit` of the addressed byte (out-of-range bytes read as 0). -/
theorem bitmap_get_as_testBit (s : List Nat) (slen p : Nat)
    (hsl : s.length ≤ slen) :
    bitmap_get s slen p = (s.getD (p / 8) 0).testBit (7 - p % 8) := by
  rw [bitmap_get_eq_testBit]
  split
  · rename_i h
    rw [List.getD_eq_default _ _ (by omega)]
    simp [Nat.zero_testBit]
  · rfl

/-- Reading inside the byte just written by `List.set`. -/
theorem bitmap_get_set_byte (d : List Nat) (dlen i v p : Nat)
    (hi : i < d.length) (hd : d.length ≤ dlen) (hp : p / 8 = i) :
    bitmap_get (d.set i v) dlen p = v.testBit (7 - p % 8) := by
  rw [bitmap_get_as_testBit _ _ _ (by simpa using hd), hp]
  congr 1
  simp [List.getD, List.getElem?_set_self', List.getElem?_eq_getElem hi]

/-- Reading outside the byte just written by `List.set`. -/
theorem bitmap_get_set_byte_ne (d : List Nat) (dlen i v p : Nat)
    (hp : p / 8 ≠ i) :
    bitmap_get (d.set i v) dlen p = bitmap_get d dlen p := by
  unfold bitmap_get
  have hgd : (d.set i v).getD (p / 8) 0 = d.getD (p / 8) 0 := by
    simp [List.getD, List.getElem?_set_ne (fun h => hp h.symm)]
  rw [hgd]

/-- Full behaviour of the tail bit loop of `bitmap_copy`: bits in
`[doff, doff + count)` that fit the destination are copied from the source
starting at `soff`; everything else is untouched. -/
theorem bitmap_copy_tail_spec (dlen : Nat) (s : List Nat) (slen : Nat) :
    ∀ (count : Nat) (d : List Nat) (doff soff : Nat), d.length = dlen →
      (bitmap_copy_tail dlen s slen d doff soff count).length = dlen ∧
      ∀ p, bitmap_get (bitmap_copy_tail dlen s slen d doff soff count)
          dlen p =
        if doff ≤ p ∧ p < doff + count ∧ p < dlen * 8 then
          bitmap_get s slen (soff + (p - doff))
        else bitmap_get d dlen p := by
  intro count
  induction count with
  | zero =>
    intro d doff soff hd
    refine ⟨hd, fun p => ?_⟩
    rw [if_neg (by omega)]
    rfl
  | succ n ih =>
    intro d doff soff hd
    simp only [bitmap_copy_tail]
    have hset : (bitmap_set d dlen doff (bitmap_get s slen soff)).length =
        dlen := by rw [bitmap_set_length]; exact hd
    obtain ⟨ihlen, ihget⟩ :=
      ih (bitmap_set d dlen doff (bitmap_get s slen soff)) (doff + 1)
        (soff + 1) hset
    refine ⟨ihlen, fun p => ?_⟩
    rw [ihget p]
    split_ifs with h1 h2
    · congr 1
      omega
    · exfalso
      exact h2 ⟨by omega, by omega, h1.2.2⟩
    · rename_i h2'
      have hpd : p = doff := by omega
      subst hpd
      rw [bitmap_get_set_eq _ _ _ _ (by omega) (by omega),
        Nat.sub_self, Nat.add_zero]
    · rename_i h2'
      by_cases hpd : p = doff
      · subst hpd
        rw [bitmap_set_out_of_range _ _ _ _ (by omega)]
      · exact bitmap_get_set_ne _ _ _ _ _ hpd

/-- The head bit loop of `bitmap_copy` does nothing when the destination
offset is already byte-aligned. -/
theorem bitmap_copy_head_noop (dlen : Nat) (s : List Nat) (slen : Nat)
    (d : List Nat) (doff soff count fuel : Nat) (h : doff % 8 = 0) :
    bitmap_copy_head dlen s slen d doff soff count fuel =
      (d, doff, soff, count) := by
  cases fuel
  · rfl
  · rw [bitmap_copy_head, if_neg (by omega)]

/-- Full behaviour of the aligned byte loop of `bitmap_copy`: some `k`
whole bytes are copied; with fuel at least `count - 8` the loop runs until
its C exit condition holds. -/
theorem bitmap_copy_aligned_spec (dlen : Nat) (s : List Nat) (slen : Nat)
    (hsl : s.length ≤ slen) :
    ∀ (fuel : Nat) (d : List Nat) (didx sidx count : Nat),
      d.length = dlen → count ≤ fuel + 8 →
      ∃ k,
        (bitmap_copy_aligned dlen s slen d didx sidx count fuel).2.1 =
          didx + k ∧
        (bitmap_copy_aligned dlen s slen d didx sidx count fuel).2.2.1 =
          sidx + k ∧
        (bitmap_copy_aligned dlen s slen d didx sidx count fuel).2.2.2 =
          count - 8 * k ∧
        8 * k ≤ count ∧
        (bitmap_copy_aligned dlen s slen d didx sidx count fuel).1.length =
          dlen ∧
        ¬(count - 8 * k > 8 ∧ didx + k < dlen ∧ sidx + k < slen) ∧
        ∀ p, bitmap_get
            (bitmap_copy_aligned dlen s slen d didx sidx count fuel).1
            dlen p =
          if didx * 8 ≤ p ∧ p < (didx + k) * 8 then
            bitmap_get s slen (sidx * 8 + (p - didx * 8))
          else bitmap_get d dlen p := by
  intro fuel
  induction fuel with
  | zero =>
    intro d didx sidx count hd hcf
    refine ⟨0, ?_, ?_, ?_, by omega, ?_, by omega, fun p => ?_⟩
    · simp [bitmap_copy_aligned]
    · simp [bitmap_copy_aligned]
    · simp [bitmap_copy_aligned]
    · simpa [bitmap_copy_aligned] using hd
    · rw [if_neg (by omega)]
      rfl
  | succ n ih =>
    intro d didx sidx count hd hcf
    rw [bitmap_copy_aligned]
    by_cases hg : count > 8 ∧ didx < dlen ∧ sidx < slen
    · rw [if_pos hg]
      obtain ⟨k, h1, h2, h3, h4, h5, h6, h7⟩ :=
        ih (d.set didx (s.getD sidx 0)) (didx + 1) (sidx + 1) (count - 8)
          (by simpa using hd) (by omega)
      refine ⟨k + 1, by omega, by omega, by omega, by omega, h5, ?_,
        fun p => ?_⟩
      · intro hc
        exact h6 ⟨by omega, by omega, by omega⟩
      · rw [h7 p]
        split_ifs with ha hb hb2
        · congr 1
          omega
        · exact absurd ⟨by omega, by omega⟩ hb
        · have hp8 : p / 8 = didx := by omega
          rw [bitmap_get_set_byte _ _ _ _ _ (by omega) (by omega) hp8,
            bitmap_get_as_testBit _ _ _ hsl]
          have hq8 : (sidx * 8 + (p - didx * 8)) / 8 = sidx := by omega
          have hqm : (sidx * 8 + (p - didx * 8)) % 8 = p % 8 := by omega
          rw [hq8, hqm]
        · by_cases hp8 : p / 8 = didx
          · exact absurd ⟨by omega, by omega⟩ hb2
          · exact bitmap_get_set_byte_ne _ _ _ _ _ hp8
    · rw [if_neg hg]
      refine ⟨0, ?_, ?_, ?_, by omega, ?_, by simpa using hg, fun p => ?_⟩
      · simp
      · simp
      · simp
      · exact hd
      · rw [if_neg (by omega)]

/-- Bit structure of the skew-merged byte
`((x << skew) | (y >> (8 - skew))) % 256`: its MSB-first bit `t` is bit
`skew + t` of the two-byte window `x ++ y`. -/
theorem testBit_skew_merge (x y skew t : Nat) (hy : y < 256)
    (hsk : skew < 8) (ht : t < 8) :
    (((x <<< skew) ||| (y >>> (8 - skew))) % 256).testBit (7 - t) =
      if skew + t < 8 then x.testBit (7 - (skew + t))
      else y.testBit (7 - (skew + t - 8)) := by
  have h7t : 7 - t < 8 := by omega
  rw [show (256 : Nat) = 2 ^ 8 from by norm_num,
    Nat.testBit_mod_two_pow, Nat.testBit_lor, Nat.testBit_shiftLeft,
    Nat.testBit_shiftRight]
  by_cases hc : skew + t < 8
  · rw [if_pos hc]
    have hyf : y.testBit (8 - skew + (7 - t)) = false := by
      apply Nat.testBit_lt_two_pow
      calc y < 2 ^ 8 := by omega
        _ ≤ 2 ^ (8 - skew + (7 - t)) :=
            Nat.pow_le_pow_right (by omega) (by omega)
    simp [hyf, h7t, show skew ≤ 7 - t from by omega,
      show 7 - t - skew = 7 - (skew + t) from by omega]
  · rw [if_neg hc]
    simp [h7t, show ¬ (skew ≤ 7 - t) from by omega,
      show 8 - skew + (7 - t) = 7 - (skew + t - 8) from by omega]

/-- Full behaviour of the skewed byte loop of `bitmap_copy`: some `k`
merged bytes are written; each destination bit in the written window reads
the source bit at the same distance from `soff`. -/
theorem bitmap_copy_skew_spec (dlen : Nat) (s : List Nat) (slen skew : Nat)
    (hsl : s.length ≤ slen) (hbytes : ∀ b ∈ s, b < 256) (hsk : skew < 8) :
    ∀ (fuel : Nat) (d : List Nat) (didx sidx doff soff count : Nat),
      d.length = dlen → count ≤ fuel + 8 →
      doff = didx * 8 → soff = sidx * 8 + skew →
      ∃ k,
        (bitmap_copy_skew dlen s slen skew d didx sidx doff soff count
          fuel).2.1 = doff + 8 * k ∧
        (bitmap_copy_skew dlen s slen skew d didx sidx doff soff count
          fuel).2.2.1 = soff + 8 * k ∧
        (bitmap_copy_skew dlen s slen skew d didx sidx doff soff count
          fuel).2.2.2 = count - 8 * k ∧
        8 * k ≤ count ∧
        (bitmap_copy_skew dlen s slen skew d didx sidx doff soff count
          fuel).1.length = dlen ∧
        ¬(count - 8 * k > 8 ∧ didx + k < dlen ∧ sidx + k < slen) ∧
        ∀ p, bitmap_get
            (bitmap_copy_skew dlen s slen skew d didx sidx doff soff count
              fuel).1 dlen p =
          if didx * 8 ≤ p ∧ p < (didx + k) * 8 then
            bitmap_get s slen (soff + (p - didx * 8))
          else bitmap_get d dlen p := by
  have hgetD_lt : ∀ i, s.getD i 0 < 256 := by
    intro i
    rcases Nat.lt_or_ge i s.length with hi | hi
    · simpa [List.getD, List.getElem?_eq_getElem hi] using
        hbytes _ (List.getElem_mem hi)
    · rw [List.getD_eq_default _ _ hi]
      omega
  intro fuel
  induction fuel with
  | zero =>
    intro d didx sidx doff soff count hd hcf hdoff hsoff
    refine ⟨0, ?_, ?_, ?_, by omega, ?_, by omega, fun p => ?_⟩
    · simp [bitmap_copy_skew]
    · simp [bitmap_copy_skew]
    · simp [bitmap_copy_skew]
    · simpa [bitmap_copy_skew] using hd
    · rw [if_neg (by omega)]
      rfl
  | succ n ih =>
    intro d didx sidx doff soff count hd hcf hdoff hsoff
    rw [bitmap_copy_skew]
    by_cases hg : count > 8 ∧ didx < dlen ∧ sidx < slen
    · rw [if_pos hg]
      obtain ⟨k, h1, h2, h3, h4, h5, h6, h7⟩ :=
        ih (d.set didx ((((s.getD sidx 0) <<< skew) |||
            ((s.getD (sidx + 1) 0) >>> (8 - skew))) % 256))
          (didx + 1) (sidx + 1) (doff + 8) (soff + 8) (count - 8)
          (by simpa using hd) (by omega) (by omega) (by omega)
      refine ⟨k + 1, by omega, by omega, by omega, by omega, h5, ?_,
        fun p => ?_⟩
      · intro hc
        exact h6 ⟨by omega, by omega, by omega⟩
      · rw [h7 p]
        split_ifs with ha hb hb2
        · congr 1
          omega
        · exact absurd ⟨by omega, by omega⟩ hb
        · have hp8 : p / 8 = didx := by omega
          rw [bitmap_get_set_byte _ _ _ _ _ (by omega) (by omega) hp8,
            bitmap_get_as_testBit _ _ _ hsl,
            testBit_skew_merge _ _ _ _ (hgetD_lt _) hsk (by omega)]
          by_cases hcs : skew + p % 8 < 8
          · rw [if_pos hcs]
            have hq1 : (soff + (p - didx * 8)) / 8 = sidx := by omega
            have hq2 : 7 - (soff + (p - didx * 8)) % 8 =
                7 - (skew + p % 8) := by omega
            rw [hq1, hq2]
          · rw [if_neg hcs]
            have hq1 : (soff + (p - didx * 8)) / 8 = sidx + 1 := by omega
            have hq2 : 7 - (soff + (p - didx * 8)) % 8 =
                7 - (skew + p % 8 - 8) := by omega
            rw [hq1, hq2]
        · by_cases hp8 : p / 8 = didx
          · exact absurd ⟨by omega, by omega⟩ hb2
          · exact bitmap_get_set_byte_ne _ _ _ _ _ hp8
    · rw [if_neg hg]
      refine ⟨0, ?_, ?_, ?_, by omega, ?_, by simpa using hg, fun p => ?_⟩
      · simp
      · simp
      · simp
      · exact hd
      · rw [if_neg (by omega)]

theorem fst_pair {A B : Type} (a : A) (b : B) : (a, b).1 = a := rfl

theorem snd_pair {A B : Type} (a : A) (b : B) : (a, b).2 = b := rfl

/-- `bitmap_copy` to a byte-aligned destination offset 0: the destination
keeps its length and its first `count` bits (all of which fit by
`hcnt`) are exactly the source bits from `soff` on. -/
theorem bitmap_copy_zero_doff_spec (d s : List Nat)
    (dlen slen soff count : Nat) (hd : d.length = dlen)
    (hsl : s.length ≤ slen) (hbytes : ∀ b ∈ s, b < 256)
    (hcnt : count ≤ dlen * 8) :
    (bitmap_copy d dlen 0 s slen soff count).length = dlen ∧
    ∀ i < count,
      bitmap_get (bitmap_copy d dlen 0 s slen soff count) dlen i =
        bitmap_get s slen (soff + i) := by
  simp only [bitmap_copy, Nat.zero_div, Nat.zero_mod, eq_self_iff_true,
    true_and, fst_pair, snd_pair]
  by_cases hals : soff % 8 = 0
  · rw [if_pos hals]
    obtain ⟨k1, a1, a2, a3, a4, a5, a6, a7⟩ :=
      bitmap_copy_aligned_spec dlen s slen hsl count d 0 (soff / 8) count
        hd (by omega)
    simp only [fst_pair, snd_pair]
    rw [a1, a2, a3]
    rw [bitmap_copy_head_noop _ _ _ _ _ _ _ _ (by omega)]
    simp only [fst_pair, snd_pair]
    by_cases hc8 : count - 8 * k1 > 8
    · rw [if_pos hc8]
      obtain ⟨k2, b1, b2, b3, b4, b5, b6, b7⟩ :=
        bitmap_copy_skew_spec dlen s slen (((soff / 8 + k1) * 8) % 8) hsl
          hbytes (by omega) (count - 8 * k1)
          (bitmap_copy_aligned dlen s slen d 0 (soff / 8) count count).1
          (((0 + k1) * 8) / 8) (((soff / 8 + k1) * 8) / 8)
          ((0 + k1) * 8) ((soff / 8 + k1) * 8) (count - 8 * k1)
          a5 (by omega) (by omega) (by omega)
      rw [b1, b2, b3]
      obtain ⟨tlen, tget⟩ :=
        bitmap_copy_tail_spec dlen s slen (count - 8 * k1 - 8 * k2) _
          ((0 + k1) * 8 + 8 * k2) ((soff / 8 + k1) * 8 + 8 * k2) b5
      refine ⟨tlen, fun i hi => ?_⟩
      rw [tget i]
      split_ifs with ht
      · congr 1
        omega
      · rw [b7 i]
        split_ifs with hm
        · congr 1
          omega
        · rw [a7 i]
          split_ifs with ha
          · congr 1
            omega
          · exfalso
            have hq1 : ¬ (((0 + k1) * 8) / 8 * 8 ≤ i ∧
                i < (((0 + k1) * 8) / 8 + k2) * 8) := hm
            omega
    · rw [if_neg hc8]
      obtain ⟨tlen, tget⟩ :=
        bitmap_copy_tail_spec dlen s slen (count - 8 * k1) _
          ((0 + k1) * 8) ((soff / 8 + k1) * 8) a5
      refine ⟨tlen, fun i hi => ?_⟩
      rw [tget i]
      split_ifs with ht
      · congr 1
        omega
      · rw [a7 i]
        split_ifs with ha
        · congr 1
          omega
        · omega
  · rw [if_neg hals]
    simp only [fst_pair, snd_pair]
    rw [bitmap_copy_head_noop _ _ _ _ _ _ _ _ (by omega)]
    simp only [fst_pair, snd_pair]
    by_cases hc8 : count > 8
    · rw [if_pos hc8]
      obtain ⟨k2, b1, b2, b3, b4, b5, b6, b7⟩ :=
        bitmap_copy_skew_spec dlen s slen (soff % 8) hsl hbytes (by omega)
          count d (0 / 8) (soff / 8) 0 soff count hd (by omega) (by omega)
          (by omega)
      rw [b1, b2, b3]
      obtain ⟨tlen, tget⟩ :=
        bitmap_copy_tail_spec dlen s slen (count - 8 * k2) _
          (0 + 8 * k2) (soff + 8 * k2) b5
      refine ⟨tlen, fun i hi => ?_⟩
      rw [tget i]
      split_ifs with ht
      · congr 1
        omega
      · rw [b7 i]
        split_ifs with hm
        · congr 1
          try omega
        · exfalso
          have hq1 : ¬ (0 / 8 * 8 ≤ i ∧ i < (0 / 8 + k2) * 8) := hm
          omega
    · rw [if_neg hc8]
      obtain ⟨tlen, tget⟩ :=
        bitmap_copy_tail_spec dlen s slen count d 0 soff hd
      refine ⟨tlen, fun i hi => ?_⟩
      rw [tget i]
      rw [if_pos ⟨by omega, by omega, by omega⟩]
      congr 1
      try omega

/-! ### Protocol decoders

The eight registered decoders whose C source is under src/ (pmv107j.c,
gm.c, bmw.c, bmw_g3.c and the unnamed parts for Elantra 2012, Porsche,
Schrader SMD3MA4, Hyundai/Kia).  The remaining six registry entries
(Renault, Toyota, Schrader GEN1, Schrader EG53MA4, Citroen, Ford) have no
source in the repository snapshot. -/

def pmv_preamble : List Char := ['1', '1', '1', '1', '1', '0']

/-- PMV-107J decoder (`decode` in pmv107j.c). -/
def pmv107j_decode (bits : List Nat) (numbytes numbits : Nat)
    (info : MsgInfo) : Bool × MsgInfo :=
  if numbits < 6 + 66 * 2 then (false, info) else
  let off := bitmap_seek_bits bits numbytes 0 numbits pmv_preamble
  if off = BITMAP_SEEK_NOT_FOUND then (false, info) else
  let info1 := { info with start_off := off }
  let dec := diff_manchester_decode (List.replicate 10 0) 10 bits numbytes
    (off + 6) 70
  if dec.2 < 66 then (false, info1) else
  let b0 := (if bitmap_get dec.1 10 0 then 2 else 0) |||
            (if bitmap_get dec.1 10 1 then 1 else 0)
  let b := b0 :: bitmap_copy (List.replicate 8 0) 8 0 dec.1 10 2 64
  if crc8 b 8 0x00 0x13 ≠ b.getD 8 0 then (false, info1) else
  if (b.getD 5 0) ^^^ (b.getD 6 0) ≠ 0xFF then (false, info1) else
  let tire_id := [
    ((b.getD 0 0 <<< 6) ||| (b.getD 1 0 >>> 2)) % 256,
    ((b.getD 1 0 <<< 6) ||| (b.getD 2 0 >>> 2)) % 256,
    ((b.getD 2 0 <<< 6) ||| (b.getD 3 0 >>> 2)) % 256,
    ((b.getD 3 0 <<< 6) ||| (b.getD 4 0 >>> 2)) % 256]
  let pressure_kpa : ℚ := ((b.getD 5 0 : ℚ) - 40) * 2.48
  let temp_c : Int := (b.getD 7 0 : Int) - 40
  (true, { info1 with
    pulses_count := dec.2 * 2 + 6,
    fieldset := fieldset_add_int
      (fieldset_add_float
        (fieldset_add_bytes info1.fieldset "Tire ID" tire_id (4 * 2))
        "Pressure kpa" pressure_kpa 2)
      "Temperature C" temp_c 8 })

def elantra_preamble : List Char :=
  ['0', '1', '1', '1', '0', '0', '0', '1',
   '0', '1', '0', '1', '0', '1', '0', '1']

/-- Elantra 2012 / Civic decoder (`decode` in the Elantra source part). -/
def elantra2012_decode (bits : List Nat) (numbytes numbits : Nat)
    (info : MsgInfo) : Bool × MsgInfo :=
  if numbits < 16 + 64 * 2 then (false, info) else
  let off := bitmap_seek_bits bits numbytes 0 numbits elantra_preamble
  if off = BITMAP_SEEK_NOT_FOUND then (false, info) else
  let info1 := { info with start_off := off }
  let r := convert_from_line_code (List.replicate 8 0) 8 bits numbytes
    (off + 16) ['0', '1'] ['1', '0']
  if r.2 < 64 then (false, info1) else
  if crc8 r.1 7 0x00 0x07 ≠ r.1.getD 7 0 then (false, info1) else
  let pressure_kpa : ℚ := (r.1.getD 0 0 : ℚ) + 60
  let temp_c : Int := (r.1.getD 1 0 : Int) - 50
  let tire_id := [r.1.getD 2 0, r.1.getD 3 0, r.1.getD 4 0, r.1.getD 5 0]
  (true, { info1 with
    pulses_count := (off + 16 + 64 * 2) - info1.start_off,
    fieldset := fieldset_add_int
      (fieldset_add_float
        (fieldset_add_bytes info1.fieldset "Tire ID" tire_id (4 * 2))
        "Pressure kpa" pressure_kpa 1)
      "Temperature C" temp_c 8 })

def bmw_preamble : List Char :=
  ['1', '0', '1', '0', '1', '0', '1', '0',
   '0', '1', '0', '1', '1', '0', '0', '1']

/-- BMW Gen4/5 & Audi decoder (`decode` in bmw.c). -/
def bmw_decode (bits : List Nat) (numbytes numbits : Nat)
    (info : MsgInfo) : Bool × MsgInfo :=
  if numbits < 16 + 64 * 2 then (false, info) else
  let off := bitmap_seek_bits bits numbytes 0 numbits bmw_preamble
  if off = BITMAP_SEEK_NOT_FOUND then (false, info) else
  let info1 := { info with start_off := off }
  let r := convert_from_line_code (List.replicate 11 0) 11 bits numbytes
    (off + 16) ['1', '0'] ['0', '1']
  let is_bmw := decide (r.2 ≥ 88)
  let is_audi := !is_bmw && decide (r.2 ≥ 64)
  if ¬ is_bmw ∧ ¬ is_audi then (false, info1) else
  let msg_len := if is_bmw then 11 else 8
  let crc_len := msg_len - 1
  if crc8 r.1 crc_len 0xAA 0x2F ≠ r.1.getD crc_len 0 then (false, info1) else
  let tire_id := [r.1.getD 1 0, r.1.getD 2 0, r.1.getD 3 0, r.1.getD 4 0]
  let pressure_kpa : ℚ := (r.1.getD 5 0 : ℚ) * 2.45
  let temp_c : Int := (r.1.getD 6 0 : Int) - 52
  (true, { info1 with
    pulses_count := (off + 16 + r.2 * 2) - info1.start_off,
    fieldset := fieldset_add_int
      (fieldset_add_float
        (fieldset_add_bytes info1.fieldset "Tire ID" tire_id (4 * 2))
        "Pressure kpa" pressure_kpa 1)
      "Temperature C" temp_c 8 })

def bmwg3_preamble : List Char :=
  ['1', '1', '0', '0', '1', '1', '0', '0',
   '1', '1', '0', '0', '1', '1', '0', '1']

/-- BMW Gen2/3 decoder (`decode` in bmw_g3.c). -/
def bmwg3_decode (bits : List Nat) (numbytes numbits : Nat)
    (info : MsgInfo) : Bool × MsgInfo :=
  if numbits < 16 + 88 * 2 then (false, info) else
  let off := bitmap_seek_bits bits numbytes 0 numbits bmwg3_preamble
  if off = BITMAP_SEEK_NOT_FOUND then (false, info) else
  let info1 := { info with start_off := off }
  let dec := diff_manchester_decode (List.replicate 11 0) 11 bits numbytes
    (off + 16) 90
  let is_gen3 := decide (dec.2 ≥ 88)
  let is_gen2 := !is_gen3 && decide (dec.2 ≥ 80)
  if ¬ is_gen3 ∧ ¬ is_gen2 then (false, info1) else
  let msg_len := if is_gen3 then 11 else 10
  if crc16 dec.1 msg_len 0x0000 0x1021 ≠ 0 then (false, info1) else
  let tire_id := [dec.1.getD 0 0, dec.1.getD 1 0, dec.1.getD 2 0,
    dec.1.getD 3 0]
  let pressure_kpa : ℚ := ((dec.1.getD 4 0 : ℚ) - 43) * 2.5
  let temp_c : Int := (dec.1.getD 5 0 : Int) - 40
  (true, { info1 with
    pulses_count := (off + 16 + dec.2 * 2) - info1.start_off,
    fieldset := fieldset_add_int
      (fieldset_add_float
        (fieldset_add_bytes info1.fieldset "Tire ID" tire_id (4 * 2))
        "Pressure kpa" pressure_kpa 1)
      "Temperature C" temp_c 8 })

def porsche_preamble : List Char :=
  ['1', '1', '0', '0', '1', '1', '0', '0', '1', '0', '1', '0']

/-- Porsche 987 decoder (`decode` in the Porsche source part). -/
def porsche_decode (bits : List Nat) (numbytes numbits : Nat)
    (info : MsgInfo) : Bool × MsgInfo :=
  if numbits < 20 + 80 * 2 then (false, info) else
  let off := bitmap_seek_bits bits numbytes 0 numbits porsche_preamble
  if off = BITMAP_SEEK_NOT_FOUND then (false, info) else
  let info1 := { info with start_off := off }
  let dec := diff_manchester_decode (List.replicate 10 0) 10 bits numbytes
    (off + 12) 82
  if dec.2 < 80 then (false, info1) else
  if crc16 dec.1 10 0xFFFF 0x1021 ≠ 0 then (false, info1) else
  let tire_id := [dec.1.getD 0 0, dec.1.getD 1 0, dec.1.getD 2 0,
    dec.1.getD 3 0]
  let pressure_kpa : ℚ := (dec.1.getD 4 0 : ℚ) * 2.5 - 100
  let temp_c : Int := (dec.1.getD 5 0 : Int) - 40
  (true, { info1 with
    pulses_count := (off + 12 + dec.2 * 2) - info1.start_off,
    fieldset := fieldset_add_int
      (fieldset_add_float
        (fieldset_add_bytes info1.fieldset "Tire ID" tire_id (4 * 2))
        "Pressure kpa" pressure_kpa 1)
      "Temperature C" temp_c 8 })

def smd3ma4_preamble : List Char :=
  ['0', '1', '0', '1', '0', '1', '0', '1', '1', '1', '1', '0']

/-- Schrader SMD3MA4 decoder (`decode` in the SMD3MA4 source part). -/
def smd3ma4_decode (bits : List Nat) (numbytes numbits : Nat)
    (info : MsgInfo) : Bool × MsgInfo :=
  if numbits < 12 + 39 * 2 then (false, info) else
  let off := bitmap_seek_bits bits numbytes 0 numbits smd3ma4_preamble
  if off = BITMAP_SEEK_NOT_FOUND then (false, info) else
  let info1 := { info with start_off := off }
  let r := convert_from_line_code (List.replicate 5 0) 5 bits numbytes
    (off + 12) ['0', '1'] ['1', '0']
  if r.2 < 39 then (false, info1) else
  if r.1.getD 0 0 = 0 ∧ r.1.getD 1 0 = 0 ∧ r.1.getD 2 0 = 0 ∧
      r.1.getD 3 0 = 0 then (false, info1) else
  let tire_id := [
    (((r.1.getD 0 0 &&& 0x1F) <<< 3) ||| (r.1.getD 1 0 >>> 5)) % 256,
    ((r.1.getD 1 0 <<< 3) ||| (r.1.getD 2 0 >>> 5)) % 256,
    ((r.1.getD 2 0 <<< 3) ||| (r.1.getD 3 0 >>> 5)) % 256]
  let pressure_raw := ((r.1.getD 3 0 &&& 0x1F) <<< 5) ||| (r.1.getD 4 0 >>> 3)
  let pressure_psi : ℚ := (pressure_raw : ℚ) * 0.2
  if pressure_psi > 100 ∨ pressure_psi < 0 then (false, info1) else
  (true, { info1 with
    pulses_count := (off + 12 + r.2 * 2) - info1.start_off,
    fieldset := fieldset_add_float
      (fieldset_add_bytes info1.fieldset "Tire ID" tire_id (3 * 2))
      "Pressure psi" pressure_psi 1 })

def hyundai_sync : List Char :=
  ['0', '1', '0', '1', '0', '1', '0', '1',
   '0', '1', '0', '1', '0', '1', '1', '0']

/-- Hyundai/Kia decoder (`decode` in the Hyundai/Kia source part).  The C
length precheck computes `numbits - sync_len` in `uint32_t`, which wraps
for `numbits < 16`; the wrap is mirrored exactly. -/
def hyundaikia_decode (bits : List Nat) (numbytes numbits : Nat)
    (info : MsgInfo) : Bool × MsgInfo :=
  if (numbits + (2 ^ 32 - 16)) % 2 ^ 32 < 10 * 8 * 2 then (false, info) else
  let off := bitmap_seek_bits bits numbytes 0 numbits hyundai_sync
  if off = BITMAP_SEEK_NOT_FOUND then (false, info) else
  let info1 := { info with start_off := off }
  let r := convert_from_line_code (List.replicate 10 0) 10 bits numbytes
    (off + 16) ['0', '1'] ['1', '0']
  if r.2 < 10 * 8 then (false, info1) else
  if xor_bytes r.1 9 0 ≠ r.1.getD 9 0 then (false, info1) else
  let tire_id := [r.1.getD 1 0, r.1.getD 2 0, r.1.getD 3 0, r.1.getD 4 0]
  let pressure_kpa : ℚ := (r.1.getD 6 0 : ℚ) * 2.5
  let temp_c : Int := (r.1.getD 7 0 : Int) - 50
  let battery := r.1.getD 5 0 &&& 0x7F
  let flags := r.1.getD 0 0
  (true, { info1 with
    pulses_count := (off + 16 + 10 * 8 * 2) - info1.start_off,
    fieldset := fieldset_add_hex
      (fieldset_add_uint
        (fieldset_add_int
          (fieldset_add_float
            (fieldset_add_bytes info1.fieldset "Tire ID" tire_id (4 * 2))
            "Pressure kpa" pressure_kpa 2)
          "Temperature C" temp_c 8)
        "Battery" battery 7)
      "Flags" flags 8 })

def gm_preamble : List Char := (List.replicate 24 ['1', '0']).flatten

/-- GM Aftermarket decoder (`decode` in gm.c). -/
def gm_decode (bits : List Nat) (numbytes numbits : Nat)
    (info : MsgInfo) : Bool × MsgInfo :=
  if numbits < 48 + 82 * 2 then (false, info) else
  let off := bitmap_seek_bits bits numbytes 0 numbits gm_preamble
  if off = BITMAP_SEEK_NOT_FOUND then (false, info) else
  let info1 := { info with start_off := off }
  let r := convert_from_line_code (List.replicate 17 0) 17 bits numbytes off
    ['1', '0'] ['0', '1']
  if r.2 < 130 then (false, info1) else
  if r.1.getD 0 0 ≠ 0 ∨ r.1.getD 1 0 ≠ 0 ∨ r.1.getD 2 0 ≠ 0 ∨
      r.1.getD 3 0 ≠ 0 ∨ r.1.getD 4 0 ≠ 0 ∨ r.1.getD 5 0 ≠ 0 then
    (false, info1) else
  if sum_bytes (r.1.drop 6) 10 0 ≠ r.1.getD 16 0 then (false, info1) else
  let tire_id := [r.1.getD 9 0, r.1.getD 10 0, r.1.getD 11 0,
    r.1.getD 12 0, r.1.getD 13 0]
  let pressure_kpa : ℚ := (r.1.getD 14 0 : ℚ) * 2.75
  let temp_c : Int := (r.1.getD 15 0 : Int) - 60
  if pressure_kpa > 1000 ∨ pressure_kpa < 0 then (false, info1) else
  (true, { info1 with
    pulses_count := (off + r.2 * 2) - info1.start_off,
    fieldset := fieldset_add_int
      (fieldset_add_float
        (fieldset_add_bytes info1.fieldset "Tire ID" tire_id (5 * 2))
        "Pressure kpa" pressure_kpa 1)
      "Temperature C" temp_c 8 })

/-- The decoder registry (`Decoders[]` in signal.c), restricted to the
eight entries whose decode function has source in the repository snapshot;
the relative order of the registry is preserved (Renault, Toyota, Schrader
GEN1, Schrader EG53MA4, Citroen and Ford sit between SMD3MA4 and
Hyundai/Kia in the full table but their code is absent). -/
def Decoders : List (String ×
    (List Nat → Nat → Nat → MsgInfo → Bool × MsgInfo)) :=
  [("Toyota PMV-107J", pmv107j_decode),
   ("Elantra2012 TPMS", elantra2012_decode),
   ("BMW/Audi TPMS", bmw_decode),
   ("BMW Gen2/3 TPMS", bmwg3_decode),
   ("Porsche TPMS", porsche_decode),
   ("Schrader SMD3MA4", smd3ma4_decode),
   ("Hyundai/Kia TPMS", hyundaikia_decode),
   ("GM TPMS", gm_decode)]

/-! ### Dispatcher (`decode_signal`) -/

/-- `RawSamplesBuffer` (raw_samples.h): circular store of
(level, duration) pulses. -/
structure RawSamplesBuffer where
  samples : List (Bool × Nat)
  cap : Nat
  idx : Nat
  total : Nat
  short_pulse_dur : Nat
  deriving DecidableEq

/-- Modelled from the spec: raw_samples.c is missing from src/ (app.h only
includes raw_samples.h).  §4.1/§3: `get(buf, i)` interprets `i` modulo the
capacity, so it returns the sample stored at `(idx + i) mod capacity`. -/
def raw_samples_get (s : RawSamplesBuffer) (i : Nat) : Bool × Nat :=
  s.samples.getD ((s.idx + i) % s.cap) (false, 0)

/-- The decoder iteration of `decode_signal`: run each decoder in registry
order on the working bitmap (4096 bytes) until one accepts; the accepted
decoder is recorded in `info.decoder`. -/
def decode_signal_loop (bitmap : List Nat) (numbits : Nat) :
    MsgInfo →
    List (String × (List Nat → Nat → Nat → MsgInfo → Bool × MsgInfo)) →
    Bool × MsgInfo
  | info, [] => (false, info)
  | info, (name, dec) :: rest =>
    let r := dec bitmap 4096 numbits info
    if r.1 then (true, { r.2 with decoder := some name })
    else decode_signal_loop bitmap numbits r.2 rest

/-- `decode_signal` from signal.c.  The working bitmap is 4096 bytes; the
NRZ conversion starts 32 samples before the detected region
(`idx = (uint32_t)(-32)`) and runs for `len + 32 + 100` samples at rate
`short_pulse_dur`.  The C working buffer and the payload buffer come from
`malloc`; they are modelled zero-initialised (decoders only depend on the
converted bit region for the claims below, and the payload copy overwrites
every bit the claims mention). -/
def decode_signal (s : RawSamplesBuffer) (len : Nat) (info : MsgInfo) :
    Bool × MsgInfo :=
  let conv := convert_signal_to_bits (List.replicate 4096 0) 4096
    (raw_samples_get s) (2 ^ 32 - 32) ((len + 32 + 100) % 2 ^ 32)
    s.short_pulse_dur
  let r := decode_signal_loop conv.1 conv.2 info Decoders
  if r.1 then
    let i := r.2
    if i.pulses_count ≠ 0 then
      let bb := (i.pulses_count + 7) / 8
      (true, { i with
        bits_bytes := bb
        bits := some (bitmap_copy (List.replicate bb 0) bb 0 conv.1 4096
          i.start_off i.pulses_count) })
    else (true, i)
  else (false, r.2)

/-- The number of bits `decode_signal` samples into the working bitmap;
this is the `numbits` argument handed to every decoder it tries. -/
def decode_signal_numbits (s : RawSamplesBuffer) (len : Nat) : Nat :=
  (convert_signal_to_bits (List.replicate 4096 0) 4096
    (raw_samples_get s) (2 ^ 32 - 32) ((len + 32 + 100) % 2 ^ 32)
    s.short_pulse_dur).2

/-! ### Coherent-signal scanner (`search_coherent_signal`) -/

/-- `duration_delta` from signal.c. -/
def duration_delta (a b : Nat) : Nat := if a > b then a - b else b - a

/-- One of the three classification slots: a running mean and a count per
level (`classes[k].dur[2]` / `classes[k].count[2]` in C). -/
structure SearchClass where
  dur0 : Nat
  count0 : Nat
  dur1 : Nat
  count1 : Nat
  deriving DecidableEq

def sc_dur (c : SearchClass) (level : Bool) : Nat :=
  if level then c.dur1 else c.dur0

def sc_count (c : SearchClass) (level : Bool) : Nat :=
  if level then c.count1 else c.count0

/-- Store a new running mean and count for one level. -/
def sc_store (c : SearchClass) (level : Bool) (d n : Nat) : SearchClass :=
  if level then { c with dur1 := d, count1 := n }
  else { c with dur0 := d, count0 := n }

/-- The `for (k = 0; k < SEARCH_CLASSES; k++)` classification walk: fill
an empty slot, or fold the duration into the first slot whose mean is
within 1/5; `none` when no slot accepts (the C loop exits with
`k == SEARCH_CLASSES`). -/
def classes_update (level : Bool) (dur : Nat) :
    List SearchClass → Option (List SearchClass)
  | [] => none
  | c :: rest =>
    if sc_count c level = 0 then
      some (sc_store c level dur 1 :: rest)
    else
      let classavg := sc_dur c level
      let cnt := sc_count c level
      if duration_delta dur classavg < classavg / 5 then
        some (sc_store c level ((classavg * cnt + dur) / (cnt + 1))
          (cnt + 1) :: rest)
      else
        (classes_update level dur rest).map (c :: ·)

/-- The pulse loop of `search_coherent_signal`
(`for (j = idx; j < idx + s->total; j++)`):
stop at an out-of-range duration or an unclassifiable pulse. -/
def search_loop (get : Nat → Bool × Nat) (min_duration : Nat) :
    List SearchClass → Nat → Nat → Nat → List SearchClass × Nat
  | classes, _, len, 0 => (classes, len)
  | classes, j, len, fuel + 1 =>
    let p := get j
    if p.2 < min_duration ∨ p.2 > 4000 then (classes, len)
    else
      match classes_update p.1 p.2 classes with
      | none => (classes, len)
      | some classes' =>
        search_loop get min_duration classes' (j + 1) (len + 1) fuel

/-- One step of the per-level short-duration selection (the body of the
`for (int j = 0; ...)` scan over the classes). -/
def short_dur_step (level : Bool) (short : Nat) (c : SearchClass) : Nat :=
  if sc_dur c level = 0 then short
  else if sc_count c level < 3 then short
  else if short = 0 ∨ short > sc_dur c level then sc_dur c level
  else short

/-- The per-level short-duration selection: smallest non-zero class mean
among classes with `count ≥ 3`. -/
def short_dur_fold (classes : List SearchClass) (level : Bool) : Nat :=
  classes.foldl (short_dur_step level) 0

/-- `search_coherent_signal` from signal.c, over an abstract sample reader
`get` (i.e. `raw_samples_get(s, ·)`).  Returns `(run length,
short_pulse_dur)` — the C function returns the length and stores the
short pulse duration into the buffer. -/
def search_coherent_signal (get : Nat → Bool × Nat)
    (total idx min_duration : Nat) : Nat × Nat :=
  let r := search_loop get min_duration
    (List.replicate 3 ⟨0, 0, 0, 0⟩) idx 0 total
  let s0 := short_dur_fold r.1 false
  let s1 := short_dur_fold r.1 true
  let s0 := if s0 = 0 then s1 else s0
  let s1 := if s1 = 0 then s0 else s1
  (r.2, (s0 + s1) / 2)

/-! ### Claim C8 -/

/-- C8 (amended): within the search window
`[start, start + min (8*blen) max_bits)` — the bound the C code actually
scans — `bitmap_seek_bits` returns the smallest index at which
`bitmap_match_bits` holds, and the sentinel exactly when no index in that
window matches.  (The hypothesis keeps the window below the `uint32_t`
sentinel, as in the C type.)  The claim as frozen omits the window bound;
see the counterexample. -/
theorem bitmap_seek_bits_window_minimal (b : List Nat)
    (blen startpos maxbits : Nat) (pat : List Char)
    (hov : startpos + blen * 8 ≤ BITMAP_SEEK_NOT_FOUND) :
    (bitmap_seek_bits b blen startpos maxbits pat = BITMAP_SEEK_NOT_FOUND →
      ∀ j, startpos ≤ j → j < startpos + min (blen * 8) maxbits →
        bitmap_match_bits b blen j pat = false) ∧
    (bitmap_seek_bits b blen startpos maxbits pat ≠ BITMAP_SEEK_NOT_FOUND →
      startpos ≤ bitmap_seek_bits b blen startpos maxbits pat ∧
      bitmap_seek_bits b blen startpos maxbits pat <
        startpos + min (blen * 8) maxbits ∧
      bitmap_match_bits b blen (bitmap_seek_bits b blen startpos maxbits pat)
        pat = true ∧
      ∀ j, startpos ≤ j → j < bitmap_seek_bits b blen startpos maxbits pat →
        bitmap_match_bits b blen j pat = false) := by
  have hfuel : (if startpos + maxbits < startpos + blen * 8 then
      startpos + maxbits else startpos + blen * 8) - startpos =
      min (blen * 8) maxbits := by
    split <;> omega
  have hspec := bitmap_seek_loop_spec b blen pat (min (blen * 8) maxbits)
    startpos
  have hdef : bitmap_seek_bits b blen startpos maxbits pat =
      bitmap_seek_loop b blen pat startpos (min (blen * 8) maxbits) := by
    simp only [bitmap_seek_bits]
    rw [hfuel]
  rw [hdef]
  rcases hspec with ⟨h1, h2⟩ | ⟨h1, h2, h3, h4⟩
  · constructor
    · intro _ j hj1 hj2
      exact h2 j hj1 hj2
    · intro hne
      exact absurd h1 hne
  · constructor
    · intro heq
      have : min (blen * 8) maxbits ≤ blen * 8 := Nat.min_le_left _ _
      unfold BITMAP_SEEK_NOT_FOUND at *
      omega
    · intro _
      exact ⟨h1, h2, h3, h4⟩

/-- C8 counterexample: on the single byte `0xFF` with pattern `"0"` and
`max_bits = 100`, an index at which `bitmap_match_bits` holds exists
(position 8, just past the bitmap, where out-of-range reads are `false`),
yet `bitmap_seek_bits` returns the sentinel — so it does not return the
smallest matching index ≥ start whenever one exists. -/
theorem bitmap_seek_bits_misses_out_of_window_match :
    bitmap_seek_bits [255] 1 0 100 ['0'] = BITMAP_SEEK_NOT_FOUND ∧
    bitmap_match_bits [255] 1 8 ['0'] = true := by decide

/-- Witness for `bitmap_seek_bits_window_minimal` at a concrete input:
bitmap `0xAA`, pattern `"10"`, found at position 0. -/
theorem bitmap_seek_bits_window_minimal_witness :
    (bitmap_seek_bits [170] 1 0 100 ['1', '0'] = BITMAP_SEEK_NOT_FOUND →
      ∀ j, 0 ≤ j → j < 0 + min (1 * 8) 100 →
        bitmap_match_bits [170] 1 j ['1', '0'] = false) ∧
    (bitmap_seek_bits [170] 1 0 100 ['1', '0'] ≠ BITMAP_SEEK_NOT_FOUND →
      0 ≤ bitmap_seek_bits [170] 1 0 100 ['1', '0'] ∧
      bitmap_seek_bits [170] 1 0 100 ['1', '0'] < 0 + min (1 * 8) 100 ∧
      bitmap_match_bits [170] 1 (bitmap_seek_bits [170] 1 0 100 ['1', '0'])
        ['1', '0'] = true ∧
      ∀ j, 0 ≤ j → j < bitmap_seek_bits [170] 1 0 100 ['1', '0'] →
        bitmap_match_bits [170] 1 j ['1', '0'] = false) :=
  bitmap_seek_bits_window_minimal [170] 1 0 100 ['1', '0'] (by decide)

/-! ### Claim C7 -/

/-- C7 (amended): for a non-zero rate, `convert_signal_to_bits` emits, for
each of the `count` pulses read from the ring buffer, `pulse_reps`
repetitions of its level — `⌊dur/rate⌋`, incremented when the remainder
strictly exceeds `⌊rate/2⌋` (nearest integer with exact halves rounded
*down*), clipped at 1024 — pulses with zero repetitions contributing no
bits; for rate zero it returns 0 and leaves the buffer unchanged.  The
frozen claim's `round` (half up) fails on exact halves; see the
counterexample. -/
theorem convert_signal_to_bits_reps_spec (b : List Nat) (blen : Nat)
    (get : Nat → Bool × Nat) (idx count rate : Nat)
    (hlen : b.length = blen) :
    (rate = 0 →
      (convert_signal_to_bits b blen get idx count rate).2 = 0 ∧
      (convert_signal_to_bits b blen get idx count rate).1 = b) ∧
    (rate ≠ 0 →
      (convert_signal_to_bits b blen get idx count rate).2 =
        (nrz_spec get idx rate 0 count).length ∧
      ∀ q, q < (nrz_spec get idx rate 0 count).length → q < 8 * blen →
        bitmap_get (convert_signal_to_bits b blen get idx count rate).1
            blen q =
          (nrz_spec get idx rate 0 count).getD q false) := by
  constructor
  · intro h0
    unfold convert_signal_to_bits
    rw [if_pos h0]
    exact ⟨rfl, rfl⟩
  · intro hne
    unfold convert_signal_to_bits
    rw [if_neg hne]
    obtain ⟨h1, _h2, h3, _h4⟩ :=
      convert_loop_spec blen get idx rate b 0 0 count hlen
    refine ⟨by simpa using h1, ?_⟩
    intro q hq hq8
    have := h3 q hq (by omega)
    simpa using this

/-- C7 counterexample: a single pulse of duration 3 at rate 2.  The code
emits one repetition (`3/2 = 1`, remainder `1` is not `> 1`), while the
claim's `round(dur/unit_us) = round(3/2) = 2` demands two. -/
theorem convert_signal_to_bits_ties_round_down :
    (convert_signal_to_bits (List.replicate 1 0) 1 (fun _ => (true, 3))
        0 1 2).2 = 1 ∧
    min 1024 (round ((3 : ℚ) / 2)) = 2 := by
  constructor
  · decide
  · norm_num [round_eq]

/-- Witness for `convert_signal_to_bits_reps_spec`: two pulses of duration
250 at rate 100 into a one-byte buffer. -/
theorem convert_signal_to_bits_reps_spec_witness :
    ((100 : Nat) = 0 →
      (convert_signal_to_bits (List.replicate 1 0) 1 (fun _ => (true, 250))
        0 2 100).2 = 0 ∧
      (convert_signal_to_bits (List.replicate 1 0) 1 (fun _ => (true, 250))
        0 2 100).1 = List.replicate 1 0) ∧
    ((100 : Nat) ≠ 0 →
      (convert_signal_to_bits (List.replicate 1 0) 1 (fun _ => (true, 250))
        0 2 100).2 =
        (nrz_spec (fun _ => (true, 250)) 0 100 0 2).length ∧
      ∀ q, q < (nrz_spec (fun _ => (true, 250)) 0 100 0 2).length →
        q < 8 * 1 →
        bitmap_get (convert_signal_to_bits (List.replicate 1 0) 1
            (fun _ => (true, 250)) 0 2 100).1 1 q =
          (nrz_spec (fun _ => (true, 250)) 0 100 0 2).getD q false) :=
  convert_signal_to_bits_reps_spec (List.replicate 1 0) 1
    (fun _ => (true, 250)) 0 2 100 (by decide)

/-! ### Claim C10 -/

theorem convert_loop_snd (blen : Nat) (get : Nat → Bool × Nat)
    (idx rate : Nat) : ∀ fuel b bitpos j,
    (convert_loop blen get idx rate b bitpos j fuel).2 =
      bitpos + (nrz_spec get idx rate j fuel).length := by
  intro fuel
  induction fuel with
  | zero => intro b bitpos j; simp [convert_loop, nrz_spec]
  | succ m ih =>
    intro b bitpos j
    rw [convert_loop, nrz_spec, ih]
    simp only [List.length_append, List.length_replicate, emit_bits_snd]
    omega

theorem nrz_spec_const (get : Nat → Bool × Nat) (p : Bool × Nat)
    (h : ∀ i, get i = p) (idx rate : Nat) : ∀ fuel j,
    (nrz_spec get idx rate j fuel).length = fuel * pulse_reps rate p.2 := by
  intro fuel
  induction fuel with
  | zero => intro j; simp [nrz_spec]
  | succ m ih =>
    intro j
    rw [nrz_spec]
    simp only [List.length_append, List.length_replicate, ih, h]
    ring

/-- A sample buffer whose every pulse lasts 200000 µs, with
`short_pulse_dur = 100`: each pulse expands to the 1024-bit clip. -/
def wide_buffer : RawSamplesBuffer :=
  ⟨List.replicate 64 (true, 200000), 64, 0, 64, 100⟩

theorem wide_buffer_get (i : Nat) :
    raw_samples_get wide_buffer i = (true, 200000) := by
  have hlt : i % 64 < 64 := Nat.mod_lt _ (by omega)
  unfold raw_samples_get wide_buffer
  rw [List.getD_eq_getElem?_getD, List.getElem?_replicate]
  simp [hlt]

/-- C10: the bit count returned by `convert_signal_to_bits` depends only on
the pulses and the rate, never on the destination buffer or its capacity;
it can exceed `8 * blen` (40960 bits into a 1-byte buffer); out-of-range
writes are dropped by `bitmap_set` and out-of-range reads by `bitmap_get`
return false; and `decode_signal` can hand its decoders a `numbits` (here
135168) exceeding the 4096-byte working bitmap's 32768-bit capacity. -/
theorem convert_count_independent_and_clipped :
    (∀ (b1 b2 : List Nat) (blen1 blen2 : Nat) (get : Nat → Bool × Nat)
        (idx count rate : Nat),
      (convert_signal_to_bits b1 blen1 get idx count rate).2 =
      (convert_signal_to_bits b2 blen2 get idx count rate).2) ∧
    ((convert_signal_to_bits (List.replicate 1 0) 1
        (fun _ => (true, 1000000)) 0 40 100).2 = 40960 ∧
      8 * 1 < 40960) ∧
    (∀ (b : List Nat) (blen pos : Nat) (v : Bool), 8 * blen ≤ pos →
      bitmap_set b blen pos v = b) ∧
    (∀ (b : List Nat) (blen pos : Nat), 8 * blen ≤ pos →
      bitmap_get b blen pos = false) ∧
    (decode_signal_numbits wide_buffer 0 = 135168 ∧ 4096 * 8 < 135168) := by
  refine ⟨?_, ⟨?_, by omega⟩, ?_, ?_, ⟨?_, by omega⟩⟩
  · intro b1 b2 blen1 blen2 get idx count rate
    unfold convert_signal_to_bits
    by_cases h0 : rate = 0
    · rw [if_pos h0, if_pos h0]
    · rw [if_neg h0, if_neg h0, convert_loop_snd, convert_loop_snd]
  · rw [convert_signal_to_bits.eq_def]
    rw [if_neg (by omega), convert_loop_snd,
      nrz_spec_const _ (true, 1000000) (fun _ => rfl)]
    decide
  · exact fun b blen pos v h => bitmap_set_out_of_range b blen pos v h
  · exact fun b blen pos h => bitmap_get_out_of_range b blen pos h
  · rw [decode_signal_numbits.eq_def, convert_signal_to_bits.eq_def]
    rw [if_neg (by decide), convert_loop_snd,
      nrz_spec_const _ (true, 200000) wide_buffer_get]
    decide

/-- Witness for `convert_count_independent_and_clipped`: the dropped write
and false read at position 8 of a one-byte bitmap, and count-independence
for two different destinations. -/
theorem convert_count_independent_and_clipped_witness :
    bitmap_set [5] 1 8 true = [5] ∧ bitmap_get [5] 1 8 = false ∧
    (convert_signal_to_bits [5] 1 (fun _ => (true, 7)) 0 3 2).2 =
      (convert_signal_to_bits [9, 9] 2 (fun _ => (true, 7)) 0 3 2).2 :=
  ⟨convert_count_independent_and_clipped.2.2.1 [5] 1 8 true (by decide),
   convert_count_independent_and_clipped.2.2.2.1 [5] 1 8 (by decide),
   convert_count_independent_and_clipped.1 [5] [9, 9] 1 2 _ 0 3 2⟩

/-! ### Test fixtures

Helper encoders used to build concrete inputs for witnesses, following the
spec's end-to-end scenarios (§8). -/

/-- Differential-Manchester encode (inverse of the sliding decoder): from
carried state `s`, each data bit `d` becomes the pair `(!s, if d then !s
else s)` — mid-bit transition always present, second bit repeats the first
exactly when `d = 1`. -/
def diff_manchester_encode (s : Bool) : List Bool → List Bool
  | [] => []
  | d :: rest =>
    let b2 := !s
    let b3 := if d then b2 else !b2
    b2 :: b3 :: diff_manchester_encode b3 rest

/-- MSB-first bits of one byte. -/
def byte_bits (x : Nat) : List Bool :=
  (List.range 8).map (fun i => x.testBit (7 - i))

/-- MSB-first bit stream of a byte list. -/
def bytes_to_bits (bs : List Nat) : List Bool :=
  (bs.map byte_bits).flatten

/-- Pack an MSB-first bit list into bytes (zero padded). -/
def bits_to_bytes (l : List Bool) : List Nat :=
  (List.range ((l.length + 7) / 8)).map (fun i =>
    (List.range 8).foldl
      (fun acc j => acc + if l.getD (8 * i + j) false then 2 ^ (7 - j) else 0)
      0)

/-- Run-length encode a bit list into (level, run length) pulses. -/
def bits_to_pulses : List Bool → List (Bool × Nat)
  | [] => []
  | b :: rest =>
    match bits_to_pulses rest with
    | [] => [(b, 1)]
    | (c, n) :: tail =>
      if b = c then (c, n + 1) :: tail else (b, 1) :: (c, n) :: tail

/-- The §8 PMV-107J realigned payload, CRC-8(0x13) appended
(`crc8 [00 12 34 56 78 C8 37 5A] = 0xFD`). -/
def pmv_payload : List Nat :=
  [0x00, 0x12, 0x34, 0x56, 0x78, 0xC8, 0x37, 0x5A, 0xFD]

/-- The 66 decoded bits whose realignment gives `pmv_payload`: the two low
bits of byte 0, then bytes 1..8 MSB-first. -/
def pmv_decoded_bits : List Bool :=
  [false, false] ++ bytes_to_bits (pmv_payload.drop 1)

/-- Raw PMV bit stream: preamble `111110`, bootstrap `0`, then the
differential-Manchester encoding of the 66 data bits (139 bits). -/
def pmv_fixture_bits : List Bool :=
  [true, true, true, true, true, false] ++ [false] ++
    diff_manchester_encode false pmv_decoded_bits

/-- The PMV fixture packed into 18 bytes. -/
def pmv_fixture_bytes : List Nat := bits_to_bytes pmv_fixture_bits

/-- A bitmap holding only the PMV preamble (`0xF8` then zeros): the
preamble is found but the differential-Manchester decode dies at once. -/
def pmv_fail_bytes : List Nat := 248 :: List.replicate 17 0

/-- A message info whose `start_off` differs from where the PMV preamble
sits in `pmv_fail_bytes`. -/
def pmv_preset_info : MsgInfo := { init_msg_info with start_off := 1 }

/-- The §8 GM payload: 6 zero preamble bytes, flags, device type, 5-byte
ID, pressure raw 100, temperature raw 80, and the byte-sum checksum 219. -/
def gm_payload : List Nat :=
  [0, 0, 0, 0, 0, 0, 0x12, 0x34, 0x56, 0xAB, 0xCD, 0xEF, 0x01, 0x23,
   100, 80, 219]

/-- GM raw stream: Manchester (`0 ↦ 10`, `1 ↦ 01`) encoding of
`gm_payload` (272 bits). -/
def gm_fixture_bits : List Bool :=
  ((bytes_to_bits gm_payload).map
    (fun d => if d then [false, true] else [true, false])).flatten

/-- The GM fixture packed into 34 bytes. -/
def gm_fixture_bytes : List Nat := bits_to_bytes gm_fixture_bits

/-- A 256-entry ring buffer whose samples 32.. hold the PMV fixture as
pulses of `run·100` µs (zero-duration padding elsewhere), with
`idx = 32` and `short_pulse_dur = 100`: `decode_signal` reading from
relative index −32 then sees exactly `pmv_fixture_bits`. -/
def pmv_buffer : RawSamplesBuffer :=
  ⟨(List.replicate 32 (false, 0) ++
      (bits_to_pulses pmv_fixture_bits).map (fun p => (p.1, p.2 * 100))) ++
    List.replicate 122 (false, 0), 256, 32, 256, 100⟩

/-! ### Per-decoder frame and field lemmas -/

theorem pmv107j_fail_frame (bits : List Nat) (numbytes numbits : Nat)
    (info : MsgInfo)
    (h : (pmv107j_decode bits numbytes numbits info).1 = false) :
    (pmv107j_decode bits numbytes numbits info).2.decoder = info.decoder ∧
    (pmv107j_decode bits numbytes numbits info).2.fieldset = info.fieldset ∧
    (pmv107j_decode bits numbytes numbits info).2.pulses_count
        = info.pulses_count ∧
    (pmv107j_decode bits numbytes numbits info).2.short_pulse_dur
        = info.short_pulse_dur ∧
    (pmv107j_decode bits numbytes numbits info).2.bits = info.bits ∧
    (pmv107j_decode bits numbytes numbits info).2.bits_bytes
        = info.bits_bytes := by
  simp only [pmv107j_decode] at h ⊢
  split_ifs at h ⊢ <;>
    first
    | exact ⟨rfl, rfl, rfl, rfl, rfl, rfl⟩
    | (exfalso; simp at h)

theorem elantra2012_fail_frame (bits : List Nat) (numbytes numbits : Nat)
    (info : MsgInfo)
    (h : (elantra2012_decode bits numbytes numbits info).1 = false) :
    (elantra2012_decode bits numbytes numbits info).2.decoder
        = info.decoder ∧
    (elantra2012_decode bits numbytes numbits info).2.fieldset
        = info.fieldset ∧
    (elantra2012_decode bits numbytes numbits info).2.pulses_count
        = info.pulses_count ∧
    (elantra2012_decode bits numbytes numbits info).2.short_pulse_dur
        = info.short_pulse_dur ∧
    (elantra2012_decode bits numbytes numbits info).2.bits = info.bits ∧
    (elantra2012_decode bits numbytes numbits info).2.bits_bytes
        = info.bits_bytes := by
  simp only [elantra2012_decode] at h ⊢
  split_ifs at h ⊢ <;>
    first
    | exact ⟨rfl, rfl, rfl, rfl, rfl, rfl⟩
    | (exfalso; simp at h)

theorem bmw_fail_frame (bits : List Nat) (numbytes numbits : Nat)
    (info : MsgInfo)
    (h : (bmw_decode bits numbytes numbits info).1 = false) :
    (bmw_decode bits numbytes numbits info).2.decoder = info.decoder ∧
    (bmw_decode bits numbytes numbits info).2.fieldset = info.fieldset ∧
    (bmw_decode bits numbytes numbits info).2.pulses_count
        = info.pulses_count ∧
    (bmw_decode bits numbytes numbits info).2.short_pulse_dur
        = info.short_pulse_dur ∧
    (bmw_decode bits numbytes numbits info).2.bits = info.bits ∧
    (bmw_decode bits numbytes numbits info).2.bits_bytes
        = info.bits_bytes := by
  simp only [bmw_decode] at h ⊢
  split_ifs at h ⊢ <;>
    first
    | exact ⟨rfl, rfl, rfl, rfl, rfl, rfl⟩
    | (exfalso; simp at h)

theorem bmwg3_fail_frame (bits : List Nat) (numbytes numbits : Nat)
    (info : MsgInfo)
    (h : (bmwg3_decode bits numbytes numbits info).1 = false) :
    (bmwg3_decode bits numbytes numbits info).2.decoder = info.decoder ∧
    (bmwg3_decode bits numbytes numbits info).2.fieldset = info.fieldset ∧
    (bmwg3_decode bits numbytes numbits info).2.pulses_count
        = info.pulses_count ∧
    (bmwg3_decode bits numbytes numbits info).2.short_pulse_dur
        = info.short_pulse_dur ∧
    (bmwg3_decode bits numbytes numbits info).2.bits = info.bits ∧
    (bmwg3_decode bits numbytes numbits info).2.bits_bytes
        = info.bits_bytes := by
  simp only [bmwg3_decode] at h ⊢
  split_ifs at h ⊢ <;>
    first
    | exact ⟨rfl, rfl, rfl, rfl, rfl, rfl⟩
    | (exfalso; simp at h)

theorem porsche_fail_frame (bits : List Nat) (numbytes numbits : Nat)
    (info : MsgInfo)
    (h : (porsche_decode bits numbytes numbits info).1 = false) :
    (porsche_decode bits numbytes numbits info).2.decoder = info.decoder ∧
    (porsche_decode bits numbytes numbits info).2.fieldset = info.fieldset ∧
    (porsche_decode bits numbytes numbits info).2.pulses_count
        = info.pulses_count ∧
    (porsche_decode bits numbytes numbits info).2.short_pulse_dur
        = info.short_pulse_dur ∧
    (porsche_decode bits numbytes numbits info).2.bits = info.bits ∧
    (porsche_decode bits numbytes numbits info).2.bits_bytes
        = info.bits_bytes := by
  simp only [porsche_decode] at h ⊢
  split_ifs at h ⊢ <;>
    first
    | exact ⟨rfl, rfl, rfl, rfl, rfl, rfl⟩
    | (exfalso; simp at h)

theorem smd3ma4_fail_frame (bits : List Nat) (numbytes numbits : Nat)
    (info : MsgInfo)
    (h : (smd3ma4_decode bits numbytes numbits info).1 = false) :
    (smd3ma4_decode bits numbytes numbits info).2.decoder = info.decoder ∧
    (smd3ma4_decode bits numbytes numbits info).2.fieldset = info.fieldset ∧
    (smd3ma4_decode bits numbytes numbits info).2.pulses_count
        = info.pulses_count ∧
    (smd3ma4_decode bits numbytes numbits info).2.short_pulse_dur
        = info.short_pulse_dur ∧
    (smd3ma4_decode bits numbytes numbits info).2.bits = info.bits ∧
    (smd3ma4_decode bits numbytes numbits info).2.bits_bytes
        = info.bits_bytes := by
  simp only [smd3ma4_decode] at h ⊢
  split_ifs at h ⊢ <;>
    first
    | exact ⟨rfl, rfl, rfl, rfl, rfl, rfl⟩
    | (exfalso; simp at h)

theorem hyundaikia_fail_frame (bits : List Nat) (numbytes numbits : Nat)
    (info : MsgInfo)
    (h : (hyundaikia_decode bits numbytes numbits info).1 = false) :
    (hyundaikia_decode bits numbytes numbits info).2.decoder
        = info.decoder ∧
    (hyundaikia_decode bits numbytes numbits info).2.fieldset
        = info.fieldset ∧
    (hyundaikia_decode bits numbytes numbits info).2.pulses_count
        = info.pulses_count ∧
    (hyundaikia_decode bits numbytes numbits info).2.short_pulse_dur
        = info.short_pulse_dur ∧
    (hyundaikia_decode bits numbytes numbits info).2.bits = info.bits ∧
    (hyundaikia_decode bits numbytes numbits info).2.bits_bytes
        = info.bits_bytes := by
  simp only [hyundaikia_decode] at h ⊢
  split_ifs at h ⊢ <;>
    first
    | exact ⟨rfl, rfl, rfl, rfl, rfl, rfl⟩
    | (exfalso; simp at h)

theorem gm_fail_frame (bits : List Nat) (numbytes numbits : Nat)
    (info : MsgInfo)
    (h : (gm_decode bits numbytes numbits info).1 = false) :
    (gm_decode bits numbytes numbits info).2.decoder = info.decoder ∧
    (gm_decode bits numbytes numbits info).2.fieldset = info.fieldset ∧
    (gm_decode bits numbytes numbits info).2.pulses_count
        = info.pulses_count ∧
    (gm_decode bits numbytes numbits info).2.short_pulse_dur
        = info.short_pulse_dur ∧
    (gm_decode bits numbytes numbits info).2.bits = info.bits ∧
    (gm_decode bits numbytes numbits info).2.bits_bytes
        = info.bits_bytes := by
  simp only [gm_decode] at h ⊢
  split_ifs at h ⊢ <;>
    first
    | exact ⟨rfl, rfl, rfl, rfl, rfl, rfl⟩
    | (exfalso; simp at h)

theorem pmv107j_success_fields (bits : List Nat) (numbytes numbits : Nat)
    (info : MsgInfo)
    (h : (pmv107j_decode bits numbytes numbits info).1 = true) :
    (∃ f ∈ (pmv107j_decode bits numbytes numbits info).2.fieldset,
      f.name = "Tire ID" ∧ ∃ bs, f.val = FieldVal.bytes bs) ∧
    (∃ f ∈ (pmv107j_decode bits numbytes numbits info).2.fieldset,
      (f.name = "Pressure kpa" ∨ f.name = "Pressure psi") ∧
      ∃ v, f.val = FieldVal.float v) := by
  simp only [pmv107j_decode] at h ⊢
  split_ifs at h ⊢ <;> try (exfalso; simp at h; done)
  all_goals
    exact ⟨⟨_, List.mem_append_left _ (List.mem_append_left _
      (List.mem_append_right _ (List.mem_cons_self _ _))), rfl, _, rfl⟩,
      ⟨_, List.mem_append_left _ (List.mem_append_right _
      (List.mem_cons_self _ _)), Or.inl rfl, _, rfl⟩⟩

theorem elantra2012_success_fields (bits : List Nat) (numbytes numbits : Nat)
    (info : MsgInfo)
    (h : (elantra2012_decode bits numbytes numbits info).1 = true) :
    (∃ f ∈ (elantra2012_decode bits numbytes numbits info).2.fieldset,
      f.name = "Tire ID" ∧ ∃ bs, f.val = FieldVal.bytes bs) ∧
    (∃ f ∈ (elantra2012_decode bits numbytes numbits info).2.fieldset,
      (f.name = "Pressure kpa" ∨ f.name = "Pressure psi") ∧
      ∃ v, f.val = FieldVal.float v) := by
  simp only [elantra2012_decode] at h ⊢
  split_ifs at h ⊢ <;> try (exfalso; simp at h; done)
  all_goals
    exact ⟨⟨_, List.mem_append_left _ (List.mem_append_left _
      (List.mem_append_right _ (List.mem_cons_self _ _))), rfl, _, rfl⟩,
      ⟨_, List.mem_append_left _ (List.mem_append_right _
      (List.mem_cons_self _ _)), Or.inl rfl, _, rfl⟩⟩

theorem bmw_success_fields (bits : List Nat) (numbytes numbits : Nat)
    (info : MsgInfo)
    (h : (bmw_decode bits numbytes numbits info).1 = true) :
    (∃ f ∈ (bmw_decode bits numbytes numbits info).2.fieldset,
      f.name = "Tire ID" ∧ ∃ bs, f.val = FieldVal.bytes bs) ∧
    (∃ f ∈ (bmw_decode bits numbytes numbits info).2.fieldset,
      (f.name = "Pressure kpa" ∨ f.name = "Pressure psi") ∧
      ∃ v, f.val = FieldVal.float v) := by
  simp only [bmw_decode] at h ⊢
  split_ifs at h ⊢ <;> try (exfalso; simp at h; done)
  all_goals
    exact ⟨⟨_, List.mem_append_left _ (List.mem_append_left _
      (List.mem_append_right _ (List.mem_cons_self _ _))), rfl, _, rfl⟩,
      ⟨_, List.mem_append_left _ (List.mem_append_right _
      (List.mem_cons_self _ _)), Or.inl rfl, _, rfl⟩⟩

theorem bmwg3_success_fields (bits : List Nat) (numbytes numbits : Nat)
    (info : MsgInfo)
    (h : (bmwg3_decode bits numbytes numbits info).1 = true) :
    (∃ f ∈ (bmwg3_decode bits numbytes numbits info).2.fieldset,
      f.name = "Tire ID" ∧ ∃ bs, f.val = FieldVal.bytes bs) ∧
    (∃ f ∈ (bmwg3_decode bits numbytes numbits info).2.fieldset,
      (f.name = "Pressure kpa" ∨ f.name = "Pressure psi") ∧
      ∃ v, f.val = FieldVal.float v) := by
  simp only [bmwg3_decode] at h ⊢
  split_ifs at h ⊢ <;> try (exfalso; simp at h; done)
  all_goals
    exact ⟨⟨_, List.mem_append_left _ (List.mem_append_left _
      (List.mem_append_right _ (List.mem_cons_self _ _))), rfl, _, rfl⟩,
      ⟨_, List.mem_append_left _ (List.mem_append_right _
      (List.mem_cons_self _ _)), Or.inl rfl, _, rfl⟩⟩

theorem porsche_success_fields (bits : List Nat) (numbytes numbits : Nat)
    (info : MsgInfo)
    (h : (porsche_decode bits numbytes numbits info).1 = true) :
    (∃ f ∈ (porsche_decode bits numbytes numbits info).2.fieldset,
      f.name = "Tire ID" ∧ ∃ bs, f.val = FieldVal.bytes bs) ∧
    (∃ f ∈ (porsche_decode bits numbytes numbits info).2.fieldset,
      (f.name = "Pressure kpa" ∨ f.name = "Pressure psi") ∧
      ∃ v, f.val = FieldVal.float v) := by
  simp only [porsche_decode] at h ⊢
  split_ifs at h ⊢ <;> try (exfalso; simp at h; done)
  all_goals
    exact ⟨⟨_, List.mem_append_left _ (List.mem_append_left _
      (List.mem_append_right _ (List.mem_cons_self _ _))), rfl, _, rfl⟩,
      ⟨_, List.mem_append_left _ (List.mem_append_right _
      (List.mem_cons_self _ _)), Or.inl rfl, _, rfl⟩⟩

theorem smd3ma4_success_fields (bits : List Nat) (numbytes numbits : Nat)
    (info : MsgInfo)
    (h : (smd3ma4_decode bits numbytes numbits info).1 = true) :
    (∃ f ∈ (smd3ma4_decode bits numbytes numbits info).2.fieldset,
      f.name = "Tire ID" ∧ ∃ bs, f.val = FieldVal.bytes bs) ∧
    (∃ f ∈ (smd3ma4_decode bits numbytes numbits info).2.fieldset,
      (f.name = "Pressure kpa" ∨ f.name = "Pressure psi") ∧
      ∃ v, f.val = FieldVal.float v) := by
  simp only [smd3ma4_decode] at h ⊢
  split_ifs at h ⊢ <;> try (exfalso; simp at h; done)
  all_goals
    exact ⟨⟨_, List.mem_append_left _ (List.mem_append_right _
      (List.mem_cons_self _ _)), rfl, _, rfl⟩,
      ⟨_, List.mem_append_right _ (List.mem_cons_self _ _),
      Or.inr rfl, _, rfl⟩⟩

theorem hyundaikia_success_fields (bits : List Nat) (numbytes numbits : Nat)
    (info : MsgInfo)
    (h : (hyundaikia_decode bits numbytes numbits info).1 = true) :
    (∃ f ∈ (hyundaikia_decode bits numbytes numbits info).2.fieldset,
      f.name = "Tire ID" ∧ ∃ bs, f.val = FieldVal.bytes bs) ∧
    (∃ f ∈ (hyundaikia_decode bits numbytes numbits info).2.fieldset,
      (f.name = "Pressure kpa" ∨ f.name = "Pressure psi") ∧
      ∃ v, f.val = FieldVal.float v) := by
  simp only [hyundaikia_decode] at h ⊢
  split_ifs at h ⊢ <;> try (exfalso; simp at h; done)
  all_goals
    exact ⟨⟨_, List.mem_append_left _ (List.mem_append_left _
      (List.mem_append_left _ (List.mem_append_left _
      (List.mem_append_right _ (List.mem_cons_self _ _))))), rfl, _, rfl⟩,
      ⟨_, List.mem_append_left _ (List.mem_append_left _
      (List.mem_append_left _ (List.mem_append_right _
      (List.mem_cons_self _ _)))), Or.inl rfl, _, rfl⟩⟩

theorem gm_success_fields (bits : List Nat) (numbytes numbits : Nat)
    (info : MsgInfo)
    (h : (gm_decode bits numbytes numbits info).1 = true) :
    (∃ f ∈ (gm_decode bits numbytes numbits info).2.fieldset,
      f.name = "Tire ID" ∧ ∃ bs, f.val = FieldVal.bytes bs) ∧
    (∃ f ∈ (gm_decode bits numbytes numbits info).2.fieldset,
      (f.name = "Pressure kpa" ∨ f.name = "Pressure psi") ∧
      ∃ v, f.val = FieldVal.float v) := by
  simp only [gm_decode] at h ⊢
  split_ifs at h ⊢ <;> try (exfalso; simp at h; done)
  all_goals
    exact ⟨⟨_, List.mem_append_left _ (List.mem_append_left _
      (List.mem_append_right _ (List.mem_cons_self _ _))), rfl, _, rfl⟩,
      ⟨_, List.mem_append_left _ (List.mem_append_right _
      (List.mem_cons_self _ _)), Or.inl rfl, _, rfl⟩⟩

/-! ### Claim C2 -/

set_option maxRecDepth 100000 in
/-- C2 (amended): for every decoder in the (source-available) registry and
every input on which its decode returns false, out_msg_info is unchanged
except possibly for the `start_off` scratch field, which is written as
soon as a preamble is found, before validation: fieldset, pulses_count,
bits, bits_bytes, decoder and short_pulse_dur are all preserved. -/
theorem decoders_failure_touches_only_start_off :
    ∀ d ∈ Decoders, ∀ (bits : List Nat) (numbytes numbits : Nat)
      (info : MsgInfo),
      (d.2 bits numbytes numbits info).1 = false →
      ((d.2 bits numbytes numbits info).2.decoder = info.decoder ∧
       (d.2 bits numbytes numbits info).2.fieldset = info.fieldset ∧
       (d.2 bits numbytes numbits info).2.pulses_count = info.pulses_count ∧
       (d.2 bits numbytes numbits info).2.short_pulse_dur
          = info.short_pulse_dur ∧
       (d.2 bits numbytes numbits info).2.bits = info.bits ∧
       (d.2 bits numbytes numbits info).2.bits_bytes = info.bits_bytes) := by
  intro d hd
  fin_cases hd <;> simp only [snd_pair]
  · exact pmv107j_fail_frame
  · exact elantra2012_fail_frame
  · exact bmw_fail_frame
  · exact bmwg3_fail_frame
  · exact porsche_fail_frame
  · exact smd3ma4_fail_frame
  · exact hyundaikia_fail_frame
  · exact gm_fail_frame

set_option maxRecDepth 100000 in
/-- C2 counterexample: feeding the PMV-107J decoder a bitmap that holds
its preamble but no valid payload makes decode return false while still
overwriting `start_off` — the out_msg_info argument is not left completely
unchanged on failure. -/
theorem pmv107j_failure_modifies_info :
    (pmv107j_decode pmv_fail_bytes 18 144 pmv_preset_info).1 = false ∧
    (pmv107j_decode pmv_fail_bytes 18 144 pmv_preset_info).2
      ≠ pmv_preset_info := by decide

set_option maxRecDepth 100000 in
/-- Witness for `decoders_failure_touches_only_start_off` at the PMV-107J
decoder on the preamble-only bitmap. -/
theorem decoders_failure_touches_only_start_off_witness :
    (pmv107j_decode pmv_fail_bytes 18 144 pmv_preset_info).2.decoder
        = pmv_preset_info.decoder ∧
    (pmv107j_decode pmv_fail_bytes 18 144 pmv_preset_info).2.fieldset
        = pmv_preset_info.fieldset ∧
    (pmv107j_decode pmv_fail_bytes 18 144 pmv_preset_info).2.pulses_count
        = pmv_preset_info.pulses_count ∧
    (pmv107j_decode pmv_fail_bytes 18 144 pmv_preset_info).2.short_pulse_dur
        = pmv_preset_info.short_pulse_dur ∧
    (pmv107j_decode pmv_fail_bytes 18 144 pmv_preset_info).2.bits
        = pmv_preset_info.bits ∧
    (pmv107j_decode pmv_fail_bytes 18 144 pmv_preset_info).2.bits_bytes
        = pmv_preset_info.bits_bytes :=
  decoders_failure_touches_only_start_off ("Toyota PMV-107J", pmv107j_decode)
    (List.mem_cons_self _ _) pmv_fail_bytes 18 144 pmv_preset_info (by decide)

/-! ### Claim C4 -/

set_option maxRecDepth 100000 in
/-- C4: for every decoder in the (source-available) registry and every
input on which its decode returns true, the produced field set contains a
field named exactly "Tire ID" of type bytes, and at least one float field
named "Pressure kpa" or "Pressure psi" (Schrader SMD3MA4 emits
"Pressure psi" and no temperature field). -/
theorem decoders_success_field_contract :
    ∀ d ∈ Decoders, ∀ (bits : List Nat) (numbytes numbits : Nat)
      (info : MsgInfo),
      (d.2 bits numbytes numbits info).1 = true →
      ((∃ f ∈ (d.2 bits numbytes numbits info).2.fieldset,
          f.name = "Tire ID" ∧ ∃ bs, f.val = FieldVal.bytes bs) ∧
       (∃ f ∈ (d.2 bits numbytes numbits info).2.fieldset,
          (f.name = "Pressure kpa" ∨ f.name = "Pressure psi") ∧
          ∃ v, f.val = FieldVal.float v)) := by
  intro d hd
  fin_cases hd <;> simp only [snd_pair]
  · exact pmv107j_success_fields
  · exact elantra2012_success_fields
  · exact bmw_success_fields
  · exact bmwg3_success_fields
  · exact porsche_success_fields
  · exact smd3ma4_success_fields
  · exact hyundaikia_success_fields
  · exact gm_success_fields

set_option maxRecDepth 100000 in
/-- Witness for `decoders_success_field_contract` at the PMV-107J decoder
on the §8 fixture. -/
theorem decoders_success_field_contract_witness :
    (∃ f ∈ (pmv107j_decode pmv_fixture_bytes 18 139 init_msg_info).2.fieldset,
      f.name = "Tire ID" ∧ ∃ bs, f.val = FieldVal.bytes bs) ∧
    (∃ f ∈ (pmv107j_decode pmv_fixture_bytes 18 139 init_msg_info).2.fieldset,
      (f.name = "Pressure kpa" ∨ f.name = "Pressure psi") ∧
      ∃ v, f.val = FieldVal.float v) :=
  decoders_success_field_contract ("Toyota PMV-107J", pmv107j_decode)
    (List.mem_cons_self _ _) pmv_fixture_bytes 18 139 init_msg_info
    (by decide)

/-! ### Claim C9 -/

/-- C9: the GM Aftermarket decoder returns true only if the 48-bit
alternating `10` preamble is found, Manchester decoding (`10`=0, `01`=1)
from the start of that run yields at least 130 bits, the first 6 decoded
bytes are all zero, the byte-sum (mod 256) of decoded bytes 6..15 equals
byte 16, and the pressure `b14 * 2.75` kPa lies in [0, 1000]; on success
it emits the 5-byte Tire ID from bytes 9..13, Pressure kpa `b14 * 2.75`
and Temperature C `b15 - 60`. -/
theorem gm_decode_characterization (bits : List Nat) (numbytes numbits : Nat)
    (info : MsgInfo) (h : (gm_decode bits numbytes numbits info).1 = true) :
    ∃ off raw decoded,
      off = bitmap_seek_bits bits numbytes 0 numbits gm_preamble ∧
      (raw, decoded) = convert_from_line_code (List.replicate 17 0) 17 bits
        numbytes off ['1', '0'] ['0', '1'] ∧
      48 + 82 * 2 ≤ numbits ∧
      off ≠ BITMAP_SEEK_NOT_FOUND ∧
      130 ≤ decoded ∧
      (raw.getD 0 0 = 0 ∧ raw.getD 1 0 = 0 ∧ raw.getD 2 0 = 0 ∧
       raw.getD 3 0 = 0 ∧ raw.getD 4 0 = 0 ∧ raw.getD 5 0 = 0) ∧
      sum_bytes (raw.drop 6) 10 0 = raw.getD 16 0 ∧
      ((0 : ℚ) ≤ (raw.getD 14 0 : ℚ) * 2.75 ∧
        (raw.getD 14 0 : ℚ) * 2.75 ≤ 1000) ∧
      (gm_decode bits numbytes numbits info).2.fieldset =
        info.fieldset ++
          [⟨"Tire ID", FieldVal.bytes [raw.getD 9 0, raw.getD 10 0,
              raw.getD 11 0, raw.getD 12 0, raw.getD 13 0], 5 * 2⟩,
           ⟨"Pressure kpa", FieldVal.float ((raw.getD 14 0 : ℚ) * 2.75), 1⟩,
           ⟨"Temperature C", FieldVal.int ((raw.getD 15 0 : Int) - 60), 8⟩] := by
  refine ⟨bitmap_seek_bits bits numbytes 0 numbits gm_preamble,
    (convert_from_line_code (List.replicate 17 0) 17 bits numbytes
      (bitmap_seek_bits bits numbytes 0 numbits gm_preamble)
      ['1', '0'] ['0', '1']).1,
    (convert_from_line_code (List.replicate 17 0) 17 bits numbytes
      (bitmap_seek_bits bits numbytes 0 numbits gm_preamble)
      ['1', '0'] ['0', '1']).2,
    rfl, rfl, ?_⟩
  simp only [gm_decode] at h ⊢
  split_ifs at h ⊢ <;> try (exfalso; simp at h; done)
  rename_i hlen hseek hdec hzero hsum hkpa
  push_neg at hzero
  refine ⟨by omega, hseek, by omega, ?_, ?_, ?_, ?_⟩
  · exact hzero
  · simpa using hsum
  · constructor
    · positivity
    · push_neg at hkpa
      exact hkpa.1
  · simp [fieldset_add_int, fieldset_add_float, fieldset_add_bytes]

set_option maxRecDepth 1000000 in
/-- Witness for `gm_decode_characterization` on the §8 GM fixture. -/
theorem gm_decode_characterization_witness :
    ∃ off raw decoded,
      off = bitmap_seek_bits gm_fixture_bytes 34 0 272 gm_preamble ∧
      (raw, decoded) = convert_from_line_code (List.replicate 17 0) 17
        gm_fixture_bytes 34 off ['1', '0'] ['0', '1'] ∧
      48 + 82 * 2 ≤ 272 ∧
      off ≠ BITMAP_SEEK_NOT_FOUND ∧
      130 ≤ decoded ∧
      (raw.getD 0 0 = 0 ∧ raw.getD 1 0 = 0 ∧ raw.getD 2 0 = 0 ∧
       raw.getD 3 0 = 0 ∧ raw.getD 4 0 = 0 ∧ raw.getD 5 0 = 0) ∧
      sum_bytes (raw.drop 6) 10 0 = raw.getD 16 0 ∧
      ((0 : ℚ) ≤ (raw.getD 14 0 : ℚ) * 2.75 ∧
        (raw.getD 14 0 : ℚ) * 2.75 ≤ 1000) ∧
      (gm_decode gm_fixture_bytes 34 272 init_msg_info).2.fieldset =
        init_msg_info.fieldset ++
          [⟨"Tire ID", FieldVal.bytes [raw.getD 9 0, raw.getD 10 0,
              raw.getD 11 0, raw.getD 12 0, raw.getD 13 0], 5 * 2⟩,
           ⟨"Pressure kpa", FieldVal.float ((raw.getD 14 0 : ℚ) * 2.75), 1⟩,
           ⟨"Temperature C", FieldVal.int ((raw.getD 15 0 : Int) - 60), 8⟩] :=
  gm_decode_characterization gm_fixture_bytes 34 272 init_msg_info
    (by with_unfolding_all rfl)

/-! ### Claim C1 -/

/-- Helper: behaviour of `pmv107j_decode` expressed through named
intermediate values (preamble offset `off`, sliding diff-Manchester result
`dec`, realigned bytes `b`), pinned by defining equations. -/
theorem pmv107j_decode_spec (bits : List Nat) (numbytes numbits : Nat)
    (info : MsgInfo) (off : Nat) (dec : List Nat × Nat) (b : List Nat)
    (hoff : off = bitmap_seek_bits bits numbytes 0 numbits pmv_preamble)
    (hdec : dec = diff_manchester_decode (List.replicate 10 0) 10 bits
      numbytes (off + 6) 70)
    (hb : b = ((if bitmap_get dec.1 10 0 then 2 else 0) |||
               (if bitmap_get dec.1 10 1 then 1 else 0)) ::
              bitmap_copy (List.replicate 8 0) 8 0 dec.1 10 2 64)
    (hlen : 6 + 66 * 2 ≤ numbits) :
    ((pmv107j_decode bits numbytes numbits info).1 = true ↔
      (off ≠ BITMAP_SEEK_NOT_FOUND ∧ 66 ≤ dec.2 ∧
       crc8 b 8 0x00 0x13 = b.getD 8 0 ∧
       (b.getD 5 0) ^^^ (b.getD 6 0) = 0xFF)) ∧
    ((pmv107j_decode bits numbytes numbits info).1 = true →
      (pmv107j_decode bits numbytes numbits info).2.fieldset =
        info.fieldset ++
          [⟨"Tire ID", FieldVal.bytes [
              ((b.getD 0 0 <<< 6) ||| (b.getD 1 0 >>> 2)) % 256,
              ((b.getD 1 0 <<< 6) ||| (b.getD 2 0 >>> 2)) % 256,
              ((b.getD 2 0 <<< 6) ||| (b.getD 3 0 >>> 2)) % 256,
              ((b.getD 3 0 <<< 6) ||| (b.getD 4 0 >>> 2)) % 256], 4 * 2⟩,
           ⟨"Pressure kpa",
              FieldVal.float (((b.getD 5 0 : ℚ) - 40) * 2.48), 2⟩,
           ⟨"Temperature C",
              FieldVal.int ((b.getD 7 0 : Int) - 40), 8⟩]) := by
  simp only [pmv107j_decode]
  rw [if_neg (by omega : ¬ numbits < 6 + 66 * 2)]
  rw [← hoff, ← hdec, ← hb]
  by_cases hseek : off = BITMAP_SEEK_NOT_FOUND
  · rw [if_pos hseek]
    exact ⟨iff_of_false (by simp) (fun h => absurd hseek h.1), by simp⟩
  rw [if_neg hseek]
  by_cases hd66 : dec.2 < 66
  · rw [if_pos hd66]
    exact ⟨iff_of_false (by simp) (fun h => absurd h.2.1 (by omega)), by simp⟩
  rw [if_neg hd66]
  by_cases hcrc : crc8 b 8 0x00 0x13 ≠ b.getD 8 0
  · rw [if_pos hcrc]
    exact ⟨iff_of_false (by simp) (fun h => absurd h.2.2.1 hcrc), by simp⟩
  rw [if_neg hcrc]
  by_cases hxor : (b.getD 5 0) ^^^ (b.getD 6 0) ≠ 0xFF
  · rw [if_pos hxor]
    exact ⟨iff_of_false (by simp) (fun h => absurd h.2.2.2 hxor), by simp⟩
  rw [if_neg hxor]
  refine ⟨iff_of_true rfl
    ⟨hseek, by omega, not_not.mp hcrc, not_not.mp hxor⟩, fun _ => ?_⟩
  simp [fieldset_add_int, fieldset_add_float, fieldset_add_bytes]

/-- C1: for every input bitmap with at least 6 + 66*2 bits, the Toyota
PMV-107J decoder returns true exactly when the `111110` preamble is found,
the sliding differential-Manchester decode from the offset after the
preamble yields at least 66 bits, the CRC-8 with polynomial 0x13 and init
0x00 over the realigned bytes 0..7 equals byte 8, and byte 5 XOR byte 6
equals 0xFF; on success it appends a 4-byte Tire ID built by the realign
shifts, Pressure kpa = (b5 - 40) * 2.48 and Temperature C = b7 - 40. -/
theorem pmv107j_decode_characterization (bits : List Nat)
    (numbytes numbits : Nat) (info : MsgInfo)
    (hlen : 6 + 66 * 2 ≤ numbits) :
    ∃ off dec b,
      off = bitmap_seek_bits bits numbytes 0 numbits pmv_preamble ∧
      dec = diff_manchester_decode (List.replicate 10 0) 10 bits numbytes
        (off + 6) 70 ∧
      b = ((if bitmap_get dec.1 10 0 then 2 else 0) |||
           (if bitmap_get dec.1 10 1 then 1 else 0)) ::
          bitmap_copy (List.replicate 8 0) 8 0 dec.1 10 2 64 ∧
      ((pmv107j_decode bits numbytes numbits info).1 = true ↔
        (off ≠ BITMAP_SEEK_NOT_FOUND ∧ 66 ≤ dec.2 ∧
         crc8 b 8 0x00 0x13 = b.getD 8 0 ∧
         (b.getD 5 0) ^^^ (b.getD 6 0) = 0xFF)) ∧
      ((pmv107j_decode bits numbytes numbits info).1 = true →
        (pmv107j_decode bits numbytes numbits info).2.fieldset =
          info.fieldset ++
            [⟨"Tire ID", FieldVal.bytes [
                ((b.getD 0 0 <<< 6) ||| (b.getD 1 0 >>> 2)) % 256,
                ((b.getD 1 0 <<< 6) ||| (b.getD 2 0 >>> 2)) % 256,
                ((b.getD 2 0 <<< 6) ||| (b.getD 3 0 >>> 2)) % 256,
                ((b.getD 3 0 <<< 6) ||| (b.getD 4 0 >>> 2)) % 256], 4 * 2⟩,
             ⟨"Pressure kpa",
                FieldVal.float (((b.getD 5 0 : ℚ) - 40) * 2.48), 2⟩,
             ⟨"Temperature C",
                FieldVal.int ((b.getD 7 0 : Int) - 40), 8⟩]) := by
  refine ⟨_, _, _, rfl, rfl, rfl, ?_⟩
  exact pmv107j_decode_spec bits numbytes numbits info _ _ _ rfl rfl rfl hlen

/-- Witness for `pmv107j_decode_characterization` on the §8 PMV-107J
fixture (18 bytes, 139 bits). -/
theorem pmv107j_decode_characterization_witness :
    ∃ off dec b,
      off = bitmap_seek_bits pmv_fixture_bytes 18 0 139 pmv_preamble ∧
      dec = diff_manchester_decode (List.replicate 10 0) 10
        pmv_fixture_bytes 18 (off + 6) 70 ∧
      b = ((if bitmap_get dec.1 10 0 then 2 else 0) |||
           (if bitmap_get dec.1 10 1 then 1 else 0)) ::
          bitmap_copy (List.replicate 8 0) 8 0 dec.1 10 2 64 ∧
      ((pmv107j_decode pmv_fixture_bytes 18 139 init_msg_info).1 = true ↔
        (off ≠ BITMAP_SEEK_NOT_FOUND ∧ 66 ≤ dec.2 ∧
         crc8 b 8 0x00 0x13 = b.getD 8 0 ∧
         (b.getD 5 0) ^^^ (b.getD 6 0) = 0xFF)) ∧
      ((pmv107j_decode pmv_fixture_bytes 18 139 init_msg_info).1 = true →
        (pmv107j_decode pmv_fixture_bytes 18 139 init_msg_info).2.fieldset =
          init_msg_info.fieldset ++
            [⟨"Tire ID", FieldVal.bytes [
                ((b.getD 0 0 <<< 6) ||| (b.getD 1 0 >>> 2)) % 256,
                ((b.getD 1 0 <<< 6) ||| (b.getD 2 0 >>> 2)) % 256,
                ((b.getD 2 0 <<< 6) ||| (b.getD 3 0 >>> 2)) % 256,
                ((b.getD 3 0 <<< 6) ||| (b.getD 4 0 >>> 2)) % 256], 4 * 2⟩,
             ⟨"Pressure kpa",
                FieldVal.float (((b.getD 5 0 : ℚ) - 40) * 2.48), 2⟩,
             ⟨"Temperature C",
                FieldVal.int ((b.getD 7 0 : Int) - 40), 8⟩]) :=
  pmv107j_decode_characterization pmv_fixture_bytes 18 139 init_msg_info
    (by decide)

/-! ### Claim C5 -/

/-- Class-slot invariant: every level with a non-zero count carries a
running mean between `m` (the scanner's `min_duration`) and 4000. -/
def sc_ok (m : Nat) (c : SearchClass) : Prop :=
  (c.count0 ≠ 0 → m ≤ c.dur0 ∧ c.dur0 ≤ 4000) ∧
  (c.count1 ≠ 0 → m ≤ c.dur1 ∧ c.dur1 ≤ 4000)

/-- Total number of classified pulses over all slots and levels. -/
def counts_sum (classes : List SearchClass) : Nat :=
  (classes.map (fun c => c.count0 + c.count1)).sum

theorem sc_ok_dur_bounds (m : Nat) (c : SearchClass) (level : Bool)
    (h : sc_ok m c) (hc : sc_count c level ≠ 0) :
    m ≤ sc_dur c level ∧ sc_dur c level ≤ 4000 := by
  cases level
  · simp [sc_count] at hc
    simp only [sc_dur]
    simpa using h.1 hc
  · simp [sc_count] at hc
    simp only [sc_dur]
    simpa using h.2 hc

theorem class_mean_bounds (m avg d cnt : Nat) (h1 : m ≤ avg)
    (h2 : avg ≤ 4000) (h3 : m ≤ d) (h4 : d ≤ 4000) :
    m ≤ (avg * cnt + d) / (cnt + 1) ∧ (avg * cnt + d) / (cnt + 1) ≤ 4000 := by
  constructor
  · have h : m * (cnt + 1) ≤ avg * cnt + d := by nlinarith
    exact (Nat.le_div_iff_mul_le (Nat.succ_pos cnt)).mpr h
  · have h : avg * cnt + d ≤ 4000 * (cnt + 1) := by nlinarith
    calc (avg * cnt + d) / (cnt + 1) ≤ 4000 * (cnt + 1) / (cnt + 1) :=
          Nat.div_le_div_right h
      _ = 4000 := by
          rw [Nat.mul_comm]
          exact Nat.mul_div_cancel_left _ (Nat.succ_pos cnt)

theorem sc_store_ok (m : Nat) (c : SearchClass) (level : Bool) (d n : Nat)
    (hc : sc_ok m c) (hd1 : m ≤ d) (hd2 : d ≤ 4000) :
    sc_ok m (sc_store c level d n) := by
  cases level
  · exact ⟨fun _ => ⟨hd1, hd2⟩, fun hn => hc.2 hn⟩
  · exact ⟨fun hn => hc.1 hn, fun _ => ⟨hd1, hd2⟩⟩

theorem classes_update_length (level : Bool) (dur : Nat) :
    ∀ (classes classes' : List SearchClass),
      classes_update level dur classes = some classes' →
      classes'.length = classes.length := by
  intro classes
  induction classes with
  | nil => intro classes' h; simp [classes_update] at h
  | cons c rest ih =>
    intro classes' h
    simp only [classes_update] at h
    split_ifs at h with h1 h2
    · injection h with h; subst h; simp
    · injection h with h; subst h; simp
    · rcases Option.map_eq_some'.mp h with ⟨rest', hr, rfl⟩
      simp [ih rest' hr]

theorem classes_update_sum (level : Bool) (dur : Nat) :
    ∀ (classes classes' : List SearchClass),
      classes_update level dur classes = some classes' →
      counts_sum classes' = counts_sum classes + 1 := by
  intro classes
  induction classes with
  | nil => intro classes' h; simp [classes_update] at h
  | cons c rest ih =>
    intro classes' h
    simp only [classes_update] at h
    split_ifs at h with h1 h2
    · injection h with h; subst h
      cases level <;> simp [counts_sum, sc_store, sc_count] at h1 ⊢ <;> omega
    · injection h with h; subst h
      cases level <;> simp [counts_sum, sc_store, sc_count] at h1 ⊢ <;> omega
    · rcases Option.map_eq_some'.mp h with ⟨rest', hr, rfl⟩
      have hr' := ih rest' hr
      simp only [counts_sum, List.map_cons, List.sum_cons] at hr' ⊢
      omega

theorem classes_update_ok (m : Nat) (level : Bool) (dur : Nat)
    (hd1 : m ≤ dur) (hd2 : dur ≤ 4000) :
    ∀ (classes classes' : List SearchClass),
      (∀ c ∈ classes, sc_ok m c) →
      classes_update level dur classes = some classes' →
      ∀ c ∈ classes', sc_ok m c := by
  intro classes
  induction classes with
  | nil => intro classes' _ h; simp [classes_update] at h
  | cons c rest ih =>
    intro classes' hok h
    simp only [classes_update] at h
    split_ifs at h with h1 h2
    · injection h with h; subst h
      intro x hx
      rcases List.mem_cons.mp hx with rfl | hx
      · exact sc_store_ok m c level dur 1 (hok c (List.mem_cons_self _ _))
          hd1 hd2
      · exact hok x (List.mem_cons_of_mem _ hx)
    · injection h with h; subst h
      intro x hx
      rcases List.mem_cons.mp hx with rfl | hx
      · have hc := hok c (List.mem_cons_self _ _)
        have hb := sc_ok_dur_bounds m c level hc h1
        have hm := class_mean_bounds m (sc_dur c level) dur
          (sc_count c level) hb.1 hb.2 hd1 hd2
        exact sc_store_ok m c level _ _ hc hm.1 hm.2
      · exact hok x (List.mem_cons_of_mem _ hx)
    · rcases Option.map_eq_some'.mp h with ⟨rest', hr, rfl⟩
      intro x hx
      rcases List.mem_cons.mp hx with rfl | hx
      · exact hok _ (List.mem_cons_self _ _)
      · exact ih rest' (fun y hy => hok y (List.mem_cons_of_mem _ hy)) hr x hx

/-- Loop invariant for `search_loop`: slot means stay within
`[min_duration, 4000]`, the total classified count tracks the returned
length, and the number of slots is preserved. -/
theorem search_loop_inv (get : Nat → Bool × Nat) (m : Nat) :
    ∀ (fuel : Nat) (classes : List SearchClass) (j len : Nat),
      (∀ c ∈ classes, sc_ok m c) → counts_sum classes = len →
      (∀ c ∈ (search_loop get m classes j len fuel).1, sc_ok m c) ∧
      counts_sum (search_loop get m classes j len fuel).1 =
        (search_loop get m classes j len fuel).2 ∧
      (search_loop get m classes j len fuel).1.length = classes.length := by
  intro fuel
  induction fuel with
  | zero =>
    intro classes j len hok hsum
    exact ⟨hok, hsum, rfl⟩
  | succ n ih =>
    intro classes j len hok hsum
    simp only [search_loop]
    split_ifs with hbr
    · exact ⟨hok, hsum, rfl⟩
    · cases hcu : classes_update (get j).1 (get j).2 classes with
      | none => exact ⟨hok, hsum, rfl⟩
      | some classes' =>
        have hd : m ≤ (get j).2 ∧ (get j).2 ≤ 4000 := by
          push_neg at hbr; exact hbr
        have hok' := classes_update_ok m (get j).1 (get j).2 hd.1 hd.2
          classes classes' hok hcu
        have hsum' := classes_update_sum (get j).1 (get j).2 classes
          classes' hcu
        have hlen' := classes_update_length (get j).1 (get j).2 classes
          classes' hcu
        have H := ih classes' (j + 1) (len + 1) hok' (by omega)
        exact ⟨H.1, H.2.1, H.2.2.trans hlen'⟩

theorem counts_pigeonhole (classes : List SearchClass)
    (hlen : classes.length = 3) (hsum : 19 ≤ counts_sum classes) :
    ∃ c ∈ classes, ∃ level : Bool, 3 ≤ sc_count c level := by
  obtain ⟨a, b, c, rfl⟩ := List.length_eq_three.mp hlen
  simp only [counts_sum, List.map_cons, List.map_nil, List.sum_cons,
    List.sum_nil] at hsum
  have h : 3 ≤ a.count0 ∨ 3 ≤ a.count1 ∨ 3 ≤ b.count0 ∨ 3 ≤ b.count1 ∨
      3 ≤ c.count0 ∨ 3 ≤ c.count1 := by omega
  rcases h with h | h | h | h | h | h
  · exact ⟨a, by simp, false, by simpa [sc_count] using h⟩
  · exact ⟨a, by simp, true, by simpa [sc_count] using h⟩
  · exact ⟨b, by simp, false, by simpa [sc_count] using h⟩
  · exact ⟨b, by simp, true, by simpa [sc_count] using h⟩
  · exact ⟨c, by simp, false, by simpa [sc_count] using h⟩
  · exact ⟨c, by simp, true, by simpa [sc_count] using h⟩

theorem short_dur_step_ne_zero (level : Bool) (c : SearchClass) (acc : Nat)
    (h : acc ≠ 0) : short_dur_step level acc c ≠ 0 := by
  unfold short_dur_step
  split_ifs with h1 h2 h3
  · exact h
  · exact h
  · exact h1
  · exact h

theorem short_dur_step_qual (level : Bool) (c : SearchClass) (acc : Nat)
    (h3 : 3 ≤ sc_count c level) (hd : sc_dur c level ≠ 0) :
    short_dur_step level acc c ≠ 0 := by
  unfold short_dur_step
  split_ifs with h1 h2 hs
  · exact absurd h1 hd
  · omega
  · exact hd
  · intro hacc; exact hs (Or.inl hacc)

theorem short_dur_fold_go_ne_zero (level : Bool) :
    ∀ (classes : List SearchClass) (acc : Nat),
      ((∃ c ∈ classes, 3 ≤ sc_count c level ∧ sc_dur c level ≠ 0) ∨
        acc ≠ 0) →
      classes.foldl (short_dur_step level) acc ≠ 0 := by
  intro classes
  induction classes with
  | nil =>
    intro acc h
    rcases h with ⟨c, hc, _⟩ | h
    · simp at hc
    · simpa using h
  | cons c rest ih =>
    intro acc h
    simp only [List.foldl_cons]
    rcases h with ⟨x, hx, hx3, hxd⟩ | hacc
    · rcases List.mem_cons.mp hx with rfl | hx
      · exact ih _ (Or.inr (short_dur_step_qual level _ acc hx3 hxd))
      · exact ih _ (Or.inl ⟨x, hx, hx3, hxd⟩)
    · exact ih _ (Or.inr (short_dur_step_ne_zero level c acc hacc))

theorem short_dur_fold_go_bounds (m : Nat) (level : Bool) :
    ∀ (classes : List SearchClass) (acc : Nat),
      (∀ c ∈ classes, sc_ok m c) →
      (acc = 0 ∨ (m ≤ acc ∧ acc ≤ 4000)) →
      (classes.foldl (short_dur_step level) acc = 0 ∨
       (m ≤ classes.foldl (short_dur_step level) acc ∧
        classes.foldl (short_dur_step level) acc ≤ 4000)) := by
  intro classes
  induction classes with
  | nil => intro acc _ hacc; simpa using hacc
  | cons c rest ih =>
    intro acc hok hacc
    simp only [List.foldl_cons]
    refine ih _ (fun x hx => hok x (List.mem_cons_of_mem _ hx)) ?_
    unfold short_dur_step
    split_ifs with h1 h2 h3
    · exact hacc
    · exact hacc
    · exact Or.inr (sc_ok_dur_bounds m c level
        (hok c (List.mem_cons_self _ _)) (by omega))
    · exact hacc

theorem short_dur_fold_bounds (m : Nat) (level : Bool)
    (classes : List SearchClass) (hok : ∀ c ∈ classes, sc_ok m c) :
    short_dur_fold classes level = 0 ∨
    (m ≤ short_dur_fold classes level ∧
      short_dur_fold classes level ≤ 4000) :=
  short_dur_fold_go_bounds m level classes 0 hok (Or.inl rfl)

theorem short_dur_fold_ne_zero (level : Bool) (classes : List SearchClass)
    (hq : ∃ c ∈ classes, 3 ≤ sc_count c level ∧ sc_dur c level ≠ 0) :
    short_dur_fold classes level ≠ 0 :=
  short_dur_fold_go_ne_zero level classes 0 (Or.inl hq)

/-- C5 (amended): whenever the scanner's emission condition holds — the
coherent run length returned by `search_coherent_signal` is strictly
greater than the `minlen` of 18 used by `scan_for_signal` — the computed
short pulse duration lies between `min_duration` and 4000 *inclusive*.
The strict bounds of the frozen claim fail at the boundary; see the
counterexample. -/
theorem search_coherent_short_pulse_bounds (get : Nat → Bool × Nat)
    (total idx min_duration : Nat)
    (h : 18 < (search_coherent_signal get total idx min_duration).1) :
    min_duration ≤ (search_coherent_signal get total idx min_duration).2 ∧
    (search_coherent_signal get total idx min_duration).2 ≤ 4000 := by
  have hinit : ∀ c ∈ List.replicate 3 (⟨0, 0, 0, 0⟩ : SearchClass),
      sc_ok min_duration c := by
    intro c hc
    have hc0 := List.eq_of_mem_replicate hc
    subst hc0
    exact ⟨fun hn => absurd rfl hn, fun hn => absurd rfl hn⟩
  have H := search_loop_inv get min_duration total
    (List.replicate 3 ⟨0, 0, 0, 0⟩) idx 0 hinit (by decide)
  simp only [search_coherent_signal, fst_pair, snd_pair] at h ⊢
  set L := search_loop get min_duration (List.replicate 3 ⟨0, 0, 0, 0⟩)
    idx 0 total with hLdef
  obtain ⟨hok, hsum, hlen3⟩ := H
  have hlen : L.1.length = 3 := by simpa using hlen3
  have hb0 := short_dur_fold_bounds min_duration false L.1 hok
  have hb1 := short_dur_fold_bounds min_duration true L.1 hok
  set s0 := short_dur_fold L.1 false with hs0def
  set s1 := short_dur_fold L.1 true with hs1def
  rcases Nat.eq_zero_or_pos min_duration with hm0 | hmpos
  · subst hm0
    refine ⟨Nat.zero_le _, ?_⟩
    rcases hb0 with hb0 | hb0 <;> rcases hb1 with hb1 | hb1 <;>
      split_ifs <;> omega
  · obtain ⟨c, hcmem, level, hc3⟩ := counts_pigeonhole L.1 hlen (by omega)
    have hcnz : sc_count c level ≠ 0 := by omega
    have hcb := sc_ok_dur_bounds min_duration c level (hok c hcmem) hcnz
    have hcd : sc_dur c level ≠ 0 := by omega
    have hqual : short_dur_fold L.1 level ≠ 0 :=
      short_dur_fold_ne_zero level L.1 ⟨c, hcmem, hc3, hcd⟩
    cases level
    · rw [← hs0def] at hqual
      rcases hb0 with hb0 | hb0
      · exact absurd hb0 hqual
      rcases hb1 with hb1 | hb1 <;> split_ifs <;> omega
    · rw [← hs1def] at hqual
      rcases hb1 with hb1 | hb1
      · exact absurd hb1 hqual
      rcases hb0 with hb0 | hb0 <;> split_ifs <;> omega

/-- Witness for `search_coherent_short_pulse_bounds`: 19 pulses of 100 µs
at `min_duration = 50` form an emitted candidate. -/
theorem search_coherent_short_pulse_bounds_witness :
    50 ≤ (search_coherent_signal (fun _ => (false, 100)) 19 0 50).2 ∧
    (search_coherent_signal (fun _ => (false, 100)) 19 0 50).2 ≤ 4000 :=
  search_coherent_short_pulse_bounds (fun _ => (false, 100)) 19 0 50
    (by decide)

/-- C5 counterexample to the frozen strict bounds: 19 pulses of exactly
4000 µs are all accepted (the duration test `dur > max_duration` is not
strict at 4000), the run is emitted (19 > 18), and the short pulse
duration equals 4000 — not strictly less than 4000. -/
theorem search_coherent_short_pulse_at_upper_bound :
    18 < (search_coherent_signal (fun _ => (false, 4000)) 19 0 100).1 ∧
    (search_coherent_signal (fun _ => (false, 4000)) 19 0 100).2 = 4000 := by
  decide

/-! ### Claim C3 -/

/-- The info state after running a prefix of the registry: each decoder is
applied in order and its (possibly modified) output info is threaded to
the next attempt, as `decode_signal` does with its single `info` object.
Specification device for the "first decoder in registry order" part of the
dispatcher claim. -/
def run_decoders (bitmap : List Nat) (numbits : Nat) :
    MsgInfo →
    List (String × (List Nat → Nat → Nat → MsgInfo → Bool × MsgInfo)) →
    MsgInfo
  | info, [] => info
  | info, d :: rest =>
    run_decoders bitmap numbits (d.2 bitmap 4096 numbits info).2 rest

/-- Success of the decoder iteration of `decode_signal` is success of the
first decoder (in list order) that accepts, with the info state threaded
through the preceding failures; the winner's name is recorded in
`decoder` and its output info is returned. -/
theorem decode_signal_loop_first (bitmap : List Nat) (numbits : Nat) :
    ∀ (ds : List (String × (List Nat → Nat → Nat → MsgInfo →
        Bool × MsgInfo))) (info : MsgInfo),
      (decode_signal_loop bitmap numbits info ds).1 = true →
      ∃ pre nd rest,
        ds = pre ++ nd :: rest ∧
        (∀ pre1 x pre2, pre = pre1 ++ x :: pre2 →
          (x.2 bitmap 4096 numbits
            (run_decoders bitmap numbits info pre1)).1 = false) ∧
        (nd.2 bitmap 4096 numbits
          (run_decoders bitmap numbits info pre)).1 = true ∧
        (decode_signal_loop bitmap numbits info ds).2 =
          { (nd.2 bitmap 4096 numbits
              (run_decoders bitmap numbits info pre)).2 with
            decoder := some nd.1 } := by
  intro ds
  induction ds with
  | nil =>
    intro info h
    simp [decode_signal_loop] at h
  | cons hd0 rest ih =>
    obtain ⟨name, dec⟩ := hd0
    intro info h
    simp only [decode_signal_loop] at h ⊢
    by_cases hr : (dec bitmap 4096 numbits info).1 = true
    · rw [if_pos hr] at h ⊢
      refine ⟨[], (name, dec), rest, rfl, ?_, ?_, ?_⟩
      · intro pre1 x pre2 hpre
        exact absurd hpre (by simp)
      · simpa [run_decoders] using hr
      · rfl
    · rw [if_neg hr] at h ⊢
      obtain ⟨pre', nd, rest', hsplit, hfails, hsucc, hres⟩ :=
        ih (dec bitmap 4096 numbits info).2 h
      refine ⟨(name, dec) :: pre', nd, rest', by rw [hsplit]; rfl, ?_,
        ?_, ?_⟩
      · intro pre1 x pre2 hpre
        cases pre1 with
        | nil =>
          simp only [List.nil_append] at hpre
          cases hpre
          simpa [run_decoders] using hr
        | cons y pre1' =>
          simp only [List.cons_append] at hpre
          injection hpre with h1 h2
          subst h1
          have hg := hfails pre1' x pre2 h2
          simpa [run_decoders] using hg
      · simpa [run_decoders] using hsucc
      · simpa [run_decoders] using hres

/-- C3: when `decode_signal` succeeds and the winning decoder recorded a
non-zero `pulses_count`, the payload buffer `bits` has exactly
`⌈pulses_count/8⌉` bytes, `bits_bytes` records that size, the first
`pulses_count` bits of the payload equal the working bitmap (the NRZ
conversion of the ring buffer) from `start_off` on, and the recorded
decoder is the first in registry order whose decode returned true, on the
info state threaded through the earlier failing decoders. -/
theorem decode_signal_payload_spec (s : RawSamplesBuffer) (len : Nat)
    (info : MsgInfo)
    (h : (decode_signal s len info).1 = true)
    (hpc : (decode_signal s len info).2.pulses_count ≠ 0) :
    ∃ conv bits,
      conv = convert_signal_to_bits (List.replicate 4096 0) 4096
        (raw_samples_get s) (2 ^ 32 - 32) ((len + 32 + 100) % 2 ^ 32)
        s.short_pulse_dur ∧
      (decode_signal s len info).2.bits = some bits ∧
      bits.length = ((decode_signal s len info).2.pulses_count + 7) / 8 ∧
      (decode_signal s len info).2.bits_bytes =
        ((decode_signal s len info).2.pulses_count + 7) / 8 ∧
      (∀ i, i < (decode_signal s len info).2.pulses_count →
        bitmap_get bits ((decode_signal s len info).2.bits_bytes) i =
          bitmap_get conv.1 4096
            ((decode_signal s len info).2.start_off + i)) ∧
      ∃ pre nd rest,
        Decoders = pre ++ nd :: rest ∧
        (∀ pre1 x pre2, pre = pre1 ++ x :: pre2 →
          (x.2 conv.1 4096 conv.2
            (run_decoders conv.1 conv.2 info pre1)).1 = false) ∧
        (nd.2 conv.1 4096 conv.2
          (run_decoders conv.1 conv.2 info pre)).1 = true ∧
        (decode_signal s len info).2.decoder = some nd.1 := by
  have hrep : (List.replicate 4096 (0 : Nat)).length = 4096 :=
    List.length_replicate ..
  have hrepb : ∀ x ∈ List.replicate 4096 (0 : Nat), x < 256 := by
    intro x hx
    rw [List.eq_of_mem_replicate hx]
    omega
  have hclen : (convert_signal_to_bits (List.replicate 4096 0) 4096
      (raw_samples_get s) (2 ^ 32 - 32) ((len + 32 + 100) % 2 ^ 32)
      s.short_pulse_dur).1.length = 4096 :=
    convert_signal_to_bits_length (List.replicate 4096 0) 4096
      (raw_samples_get s) (2 ^ 32 - 32) ((len + 32 + 100) % 2 ^ 32)
      s.short_pulse_dur hrep
  have hcbytes : ∀ x ∈ (convert_signal_to_bits (List.replicate 4096 0) 4096
      (raw_samples_get s) (2 ^ 32 - 32) ((len + 32 + 100) % 2 ^ 32)
      s.short_pulse_dur).1, x < 256 :=
    convert_signal_to_bits_bytes_lt (List.replicate 4096 0) 4096
      (raw_samples_get s) (2 ^ 32 - 32) ((len + 32 + 100) % 2 ^ 32)
      s.short_pulse_dur hrepb
  simp only [decode_signal] at h hpc ⊢
  set cv := convert_signal_to_bits (List.replicate 4096 0) 4096
    (raw_samples_get s) (2 ^ 32 - 32) ((len + 32 + 100) % 2 ^ 32)
    s.short_pulse_dur with hcv
  set R := decode_signal_loop cv.1 cv.2 info Decoders with hR
  by_cases hr1 : R.1 = true
  · rw [if_pos hr1] at h hpc ⊢
    by_cases hp0 : R.2.pulses_count ≠ 0
    · rw [if_pos hp0] at h hpc ⊢
      obtain ⟨clen, cget⟩ := bitmap_copy_zero_doff_spec
        (List.replicate ((R.2.pulses_count + 7) / 8) 0) cv.1
        ((R.2.pulses_count + 7) / 8) 4096 R.2.start_off R.2.pulses_count
        (by simp) (by omega) hcbytes (by omega)
      have hr1' : (decode_signal_loop cv.1 cv.2 info Decoders).1 = true := by
        rw [← hR]
        exact hr1
      obtain ⟨pre, nd, rest, hsplit, hfails, hsucc, hres⟩ :=
        decode_signal_loop_first cv.1 cv.2 Decoders info hr1'
      rw [← hR] at hres
      refine ⟨cv, _, rfl, rfl, ?_, rfl, ?_, pre, nd, rest, hsplit,
        hfails, hsucc, ?_⟩
      · exact clen
      · exact fun i hi => cget i hi
      · show R.2.decoder = some nd.1
        rw [hres]
    · rw [if_neg hp0] at hpc
      exact absurd hpc hp0
  · rw [if_neg hr1] at h
    simp at h

set_option maxRecDepth 1000000 in
/-- Witness for `decode_signal_payload_spec` on the §8 PMV-107J pulse
buffer (137 pulses sampled at rate 100 starting 32 before the window). -/
theorem decode_signal_payload_spec_witness :
    ∃ conv bits,
      conv = convert_signal_to_bits (List.replicate 4096 0) 4096
        (raw_samples_get pmv_buffer) (2 ^ 32 - 32) ((5 + 32 + 100) % 2 ^ 32)
        pmv_buffer.short_pulse_dur ∧
      (decode_signal pmv_buffer 5 init_msg_info).2.bits = some bits ∧
      bits.length =
        ((decode_signal pmv_buffer 5 init_msg_info).2.pulses_count + 7) /
          8 ∧
      (decode_signal pmv_buffer 5 init_msg_info).2.bits_bytes =
        ((decode_signal pmv_buffer 5 init_msg_info).2.pulses_count + 7) /
          8 ∧
      (∀ i, i < (decode_signal pmv_buffer 5 init_msg_info).2.pulses_count →
        bitmap_get bits
            ((decode_signal pmv_buffer 5 init_msg_info).2.bits_bytes) i =
          bitmap_get conv.1 4096
            ((decode_signal pmv_buffer 5 init_msg_info).2.start_off + i)) ∧
      ∃ pre nd rest,
        Decoders = pre ++ nd :: rest ∧
        (∀ pre1 x pre2, pre = pre1 ++ x :: pre2 →
          (x.2 conv.1 4096 conv.2
            (run_decoders conv.1 conv.2 init_msg_info pre1)).1 = false) ∧
        (nd.2 conv.1 4096 conv.2
          (run_decoders conv.1 conv.2 init_msg_info pre)).1 = true ∧
        (decode_signal pmv_buffer 5 init_msg_info).2.decoder =
          some nd.1 :=
  decode_signal_payload_spec pmv_buffer 5 init_msg_info (by decide)
    (by decide)

end TPMS
